import Mathlib

/-!
# robot_circle_moving: the motion server (`src/server.cpp`)

A shallow embedding of `RobotDriver::moveCyclically`, `RobotDriver::driveForwardOdom`,
`RobotDriver::turnOdom` and of the service handler `add`.

Conventions of the embedding.

* A finite C++ `double` is the rational number it denotes.  Wherever the value of an
  arithmetic operation decides a count, a branch or the end of a loop (the tick count of
  line 154, the loops of lines 82-83, the subtraction of line 134), the operation is the
  binary64 one: the exact result rounded to nearest, ties to even, by `round64`, with
  overflow to an infinity in `F64`.  Signed zeros are not told apart.  `M_PI` is the binary64
  constant of `<cmath>`, and `1.0e-2` is the binary64 literal.
* The quotient `velocity / radius` that line 148 stores in a message field is recorded as
  the exact quotient; the stored binary64 number is its rounding, and nothing is decided
  by it.
* A C++ `int` is an `Int` together with explicit range checks against `INT_MIN` and `INT_MAX`.
  An arithmetic step the language leaves undefined (a division by zero, a conversion to `int`
  of a value that is out of range or not finite, a signed overflow) is a `Fault`; fallible
  code returns `Except Fault`.
* The velocity command channel is the list of commands published so far, oldest first.
* The pose transform source is the list of the results of the successive lookups of a polling
  loop; a result is `none` when the lookup throws `tf::TransformException`.  The start
  transform is taken as recorded; a reading is what the loop body computes from
  `start_transform.inverse() * current_transform` (a length, or an angle and an axis).
* Sleeping (`rate.sleep()`, `sleep(5)`) has no effect on the values computed and is left out.
* The loop of `moveCyclically` is bounded by its counter and is a total function.  The loops
  of `turnOdom` that normalize the angle need not end in binary64 and take a bound `fuel` on
  the number of loop tests; they report `none` when it is used up.  A polling loop is run on
  a finite list of polls and reports `none` when the list is used up before it returns.
-/

namespace RobotCircleMoving

/-! ## Binary64 arithmetic -/

/-- Rounding of a rational to the nearest integer, a tie going to the even neighbour. -/
def roundNearestEven (y : ℚ) : Int :=
  if y - ⌊y⌋ < 1 / 2 then ⌊y⌋
  else if 1 / 2 < y - ⌊y⌋ then ⌊y⌋ + 1
  else if ⌊y⌋ % 2 = 0 then ⌊y⌋ else ⌊y⌋ + 1

/-- The exponent of the unit in the last place of the binary64 numbers around `x`: 52 below
the binary exponent of `x`, and never below that of the subnormal numbers. -/
def ulpExp (x : ℚ) : Int := max (Int.log 2 |x| - 52) (-1074)

/-- Rounding to binary64 (53-bit significand, round to nearest, ties to even, gradual
underflow), before the test for overflow. -/
def round64 (x : ℚ) : ℚ := roundNearestEven (x / 2 ^ ulpExp x) * 2 ^ ulpExp x

/-- Largest finite binary64 number, `DBL_MAX`. -/
def DBL_MAX : ℚ := (2 ^ 53 - 1) * 2 ^ 971

/-- A binary64 value: a finite number, an infinity with its sign, or NaN. -/
inductive F64 where
  | fin (q : ℚ)
  | inf (negative : Bool)
  | nan

namespace F64

/-- The binary64 result of an operation whose exact result is `x`. -/
def ofRat (x : ℚ) : F64 :=
  if DBL_MAX < |round64 x| then .inf (decide (x < 0)) else .fin (round64 x)

/-- Binary64 multiplication. -/
def mul : F64 → F64 → F64
  | .fin a, .fin b => ofRat (a * b)
  | .fin a, .inf n => if a = 0 then .nan else .inf (xor n (decide (a < 0)))
  | .inf n, .fin b => if b = 0 then .nan else .inf (xor n (decide (b < 0)))
  | .inf m, .inf n => .inf (xor m n)
  | .nan, _ => .nan
  | _, .nan => .nan

end F64

/-! ## Data model -/

/-- Three components, as `geometry_msgs::Vector3` and `tf::Vector3`. -/
structure Vector3 where
  x : ℚ := 0
  y : ℚ := 0
  z : ℚ := 0
deriving DecidableEq

namespace Vector3

/-- Unary minus of `tf::Vector3`. -/
def neg (v : Vector3) : Vector3 := { x := -v.x, y := -v.y, z := -v.z }

/-- Scalar product, `tf::Vector3::dot`.  At its one call, line 133, the second operand is
`(0, 0, 1)` or `(0, 0, -1)`, for which every binary64 product and sum is exact. -/
def dot (v w : Vector3) : ℚ := v.x * w.x + v.y * w.y + v.z * w.z

end Vector3

/-- The message `geometry_msgs::Twist`; a fresh message has all six components zero. -/
structure Twist where
  linear : Vector3 := {}
  angular : Vector3 := {}
deriving DecidableEq

/-- Arithmetic steps that C++ leaves undefined. -/
inductive Fault where
  | divByZero
  | intRange
deriving DecidableEq

/-- The constant `M_PI` of `<cmath>`: the binary64 number nearest to π. -/
def M_PI : ℚ := 884279719003555 / 281474976710656

/-- Smallest value of a 32-bit `int`. -/
def INT_MIN : Int := -2147483648

/-- Largest value of a 32-bit `int`. -/
def INT_MAX : Int := 2147483647

/-- Guarded division of two finite `double`s, before rounding. -/
def fdiv (a b : ℚ) : Except Fault ℚ :=
  if b = 0 then .error .divByZero else .ok (a / b)

/-- Guarded binary64 division: a zero divisor is a fault. -/
def F64.div : F64 → F64 → Except Fault F64
  | .fin a, .fin b => do
    let q ← fdiv a b
    .ok (F64.ofRat q)
  | .inf n, .fin b => if b = 0 then .error .divByZero else .ok (.inf (xor n (decide (b < 0))))
  | .nan, .fin b => if b = 0 then .error .divByZero else .ok .nan
  | .fin _, .inf _ => .ok (.fin 0)
  | .inf _, .inf _ => .ok .nan
  | .nan, .inf _ => .ok .nan
  | _, .nan => .ok .nan

/-- Truncation toward zero, the rounding of a conversion from `double` to `int`. -/
def trunc (x : ℚ) : Int := if 0 ≤ x then ⌊x⌋ else ⌈x⌉

/-- The conversion `(int)x` of a `double`, defined only when `x` is finite and the truncated
value is an `int`. -/
def toInt : F64 → Except Fault Int
  | .fin x =>
    if INT_MIN ≤ trunc x ∧ trunc x ≤ INT_MAX then .ok (trunc x) else .error .intRange
  | .inf _ => .error .intRange
  | .nan => .error .intRange

/-- Multiplication of two `int`s, defined when the product is an `int`. -/
def imul (a b : Int) : Except Fault Int :=
  if INT_MIN ≤ a * b ∧ a * b ≤ INT_MAX then .ok (a * b) else .error .intRange

/-! ## `RobotDriver::moveCyclically` -/

/-- Line 154, the operand of the conversion: `rateFrequency * 2 * M_PI * radius / velocity`,
evaluated from left to right in binary64. -/
def perCircle (radius velocity : ℚ) : Except Fault F64 :=
  let rateFrequency : F64 := .fin 10
  F64.div
    (F64.mul (F64.mul (F64.mul rateFrequency (.fin 2)) (.fin M_PI)) (.fin radius))
    (.fin velocity)

/-- Line 154: `times * (int)(rateFrequency * 2 * M_PI * radius / velocity)`. -/
def msgNumber (radius velocity : ℚ) (times : Int) : Except Fault Int := do
  let quotient ← perCircle radius velocity
  let n ← toInt quotient
  imul times n

/-- Lines 155-159: `while (--msg_number > 0) { publish(base_cmd); rate.sleep(); }`, started
with the commands `out` already published.  The decrement of `INT_MIN` overflows. -/
def publishLoop (base_cmd : Twist) (msg_number : Int) (out : List Twist) :
    Except Fault (List Twist) :=
  -- `--msg_number`
  if msg_number - 1 < INT_MIN then .error .intRange
  -- `> 0`: publish and go round again with the decremented counter
  else if 0 < msg_number - 1 then publishLoop base_cmd (msg_number - 1) (out ++ [base_cmd])
  else .ok out
termination_by msg_number.toNat
decreasing_by omega

/-- The commands published by `moveCyclically (radius, velocity, times)`, lines 142-164. -/
def moveCyclically (radius velocity : ℚ) (times : Int) : Except Fault (List Twist) := do
  let base_cmd : Twist := {}
  let base_cmd := { base_cmd with linear.y := 0 }
  let base_cmd := { base_cmd with linear.x := velocity }
  -- line 148: `base_cmd.angular.z = velocity / radius`
  let angular_z ← fdiv velocity radius
  let base_cmd := { base_cmd with angular.z := angular_z }
  -- line 154
  let msg_number ← msgNumber radius velocity times
  -- lines 155-159
  let published ← publishLoop base_cmd msg_number []
  -- lines 161-163: the stop command
  let base_cmd := { base_cmd with linear.x := 0 }
  let base_cmd := { base_cmd with angular.z := 0 }
  .ok (published ++ [base_cmd])

/-! ## The service handler `add` -/

/-- Modelled from the spec: the request type of the service `RobotCircleMoving` is generated from
a message definition that is not among the sources.  The spec gives it the two numeric fields
`velocity` and `radius`; the handler passes both to parameters of type `double`. -/
structure Request where
  velocity : ℚ
  radius : ℚ

/-- Modelled from the spec: the response type of the service `RobotCircleMoving`, generated from
the same message definition; its one field is the integer `sum`. -/
structure Response where
  sum : Int
deriving DecidableEq

/-- What a call of `add` leaves behind: the response object, the outcome of the motion generator
and the returned flag.  A fault of the generator's arithmetic raises no C++ exception, so the
handler still reaches its `return` statement. -/
structure Handled where
  res : Response
  motion : Except Fault (List Twist)
  ret : Bool

/-- The service handler `add (req, res)`, lines 169-191. -/
def add (req : Request) (res : Response) : Handled :=
  -- line 172: `res.sum = 1`
  let res := { res with sum := 1 }
  -- line 176: `driver->moveCyclically( req.radius, req.velocity, 10 )`
  let motion := moveCyclically req.radius req.velocity 10
  -- line 190: `return true`
  { res := res, motion := motion, ret := true }

/-! ## The closed-loop segment driver -/

/-- One turn of a polling loop: the value of `nh_.ok()` at the loop test and the result of the
transform lookup in the body (`none` when the lookup throws). -/
structure Poll (α : Type) where
  ok : Bool
  lookup : Option α

/-- The state of a polling loop when the supplied polls are used up: `result` is the returned
flag, or `none` while the loop is still running; `published` is the command channel. -/
structure Run where
  result : Option Bool
  published : List Twist

/-- Lines 53-77 of `driveForwardOdom`.  A reading is `dist_moved`, the length of the origin of
`start_transform.inverse() * current_transform`. -/
def driveLoop (distance : ℚ) (base_cmd : Twist) : List (Poll ℚ) → List Twist → Run
  | [], out => { result := none, published := out }
  | p :: rest, out =>
    -- `while (!done && nh_.ok())` with `done` still false; leaving here returns `false`
    if p.ok = false then { result := some false, published := out }
    else
      -- the command is published before the lookup
      match p.lookup with
      -- `catch (tf::TransformException ex) { ...; break; }`, then `return false`
      | none => { result := some false, published := out ++ [base_cmd] }
      | some dist_moved =>
        -- `if (dist_moved > distance) done = true;`, the loop ends and `true` is returned
        if dist_moved > distance then { result := some true, published := out ++ [base_cmd] }
        else driveLoop distance base_cmd rest (out ++ [base_cmd])

/-- The function `driveForwardOdom (distance, velocity)`, lines 31-78, run on the given polls. -/
def driveForwardOdom (distance velocity : ℚ) (polls : List (Poll ℚ)) : Run :=
  let base_cmd : Twist := {}
  let base_cmd := { base_cmd with linear.y := 0, angular.z := 0 }
  let base_cmd := { base_cmd with linear.x := velocity }
  driveLoop distance base_cmd polls []

/-- Line 82: `while (radians < 0) radians += 2*M_PI;`, with at most `fuel` loop tests.  The
product `2*M_PI` and the sum are binary64 operations; neither can overflow. -/
def normalizeUp : Nat → ℚ → Option ℚ
  | 0, _ => none
  | fuel + 1, radians =>
    if radians < 0 then normalizeUp fuel (round64 (radians + round64 (2 * M_PI)))
    else some radians

/-- Line 83: `while (radians > 2*M_PI) radians -= 2*M_PI;`, with at most `fuel` loop tests.
The product `2*M_PI` and the difference are binary64 operations; neither can overflow. -/
def normalizeDown : Nat → ℚ → Option ℚ
  | 0, _ => none
  | fuel + 1, radians =>
    if radians > round64 (2 * M_PI) then
      normalizeDown fuel (round64 (radians - round64 (2 * M_PI)))
    else some radians

/-- Lines 82-83 of `turnOdom`: the target angle after both loops, each with at most `fuel`
loop tests. -/
def normalizeRadians (fuel : Nat) (radians : ℚ) : Option ℚ :=
  (normalizeUp fuel radians).bind (normalizeDown fuel)

/-- The rotation part of `start_transform.inverse() * current_transform`, as `getAngle()` and
`getAxis()` report it. -/
structure Rotation where
  angle : ℚ
  axis : Vector3

/-- The binary64 literal `1.0e-2` of line 131. -/
def NOISE_FLOOR : ℚ := 5764607523034235 / 576460752303423488

/-- Lines 110-139 of `turnOdom`; `radians` is the target after normalization. -/
def turnLoop (radians : ℚ) (desired_turn_axis : Vector3) (base_cmd : Twist) :
    List (Poll Rotation) → List Twist → Run
  | [], out => { result := none, published := out }
  | p :: rest, out =>
    if p.ok = false then { result := some false, published := out }
    else
      match p.lookup with
      | none => { result := some false, published := out ++ [base_cmd] }
      | some relative_transform =>
        let actual_turn_axis := relative_transform.axis
        let angle_turned := relative_transform.angle
        -- `if ( fabs(angle_turned) < 1.0e-2) continue;`
        if |angle_turned| < NOISE_FLOOR then
          turnLoop radians desired_turn_axis base_cmd rest (out ++ [base_cmd])
        else
          -- lines 133-134, the subtraction in binary64
          let angle_turned :=
            if actual_turn_axis.dot desired_turn_axis < 0 then
              round64 (round64 (2 * M_PI) - angle_turned)
            else angle_turned
          if angle_turned > radians then { result := some true, published := out ++ [base_cmd] }
          else turnLoop radians desired_turn_axis base_cmd rest (out ++ [base_cmd])

/-- The axis of the requested turn, lines 105-106. -/
def desiredTurnAxis (clockwise : Bool) : Vector3 :=
  let desired_turn_axis : Vector3 := { x := 0, y := 0, z := 1 }
  if !clockwise then desired_turn_axis.neg else desired_turn_axis

/-- The command of a turn, lines 98-102. -/
def turnCommand (clockwise : Bool) : Twist :=
  let base_cmd : Twist := {}
  let base_cmd := { base_cmd with linear.x := 0, linear.y := 0 }
  let base_cmd := { base_cmd with angular.z := 3 / 4 }
  if clockwise then { base_cmd with angular.z := -base_cmd.angular.z } else base_cmd

/-- The function `turnOdom (clockwise, radians)`, lines 80-140, run on the given polls, the
normalization of lines 82-83 with at most `fuel` loop tests per loop.  While the
normalization runs nothing is published. -/
def turnOdom (fuel : Nat) (clockwise : Bool) (radians : ℚ) (polls : List (Poll Rotation)) :
    Run :=
  match normalizeRadians fuel radians with
  | none => { result := none, published := [] }
  | some radians => turnLoop radians (desiredTurnAxis clockwise) (turnCommand clockwise) polls []

/-! ## The commands the specification names -/

/-- The zero command of the specification: `linear_x = 0` and `angular_z = 0`, all other
components zero as well. -/
def specStopCommand : Twist :=
  { linear := { x := 0, y := 0, z := 0 }, angular := { x := 0, y := 0, z := 0 } }

/-- The motion command of the specification for a circle: `linear_x = velocity`,
`linear_y = 0` and `angular_z = velocity / radius`. -/
def specMotionCommand (velocity radius : ℚ) : Twist :=
  { linear := { x := velocity, y := 0, z := 0 },
    angular := { x := 0, y := 0, z := velocity / radius } }

/-! ## The readings the specification names -/

/-- The noise floor of the specification: a reading of `turnOdom` is ignored when its angle
is below `1.0e-2` in absolute value. -/
def specIgnored (rel : Rotation) : Prop := |rel.angle| < NOISE_FLOOR

/-- The corrected angle of the specification: `2π - angle` (the binary64 difference) when the
measured axis is anti-aligned with the desired turn axis (negative scalar product), `angle`
otherwise. -/
def specAngleTurned (desired : Vector3) (rel : Rotation) : ℚ :=
  if rel.axis.dot desired < 0 then round64 (round64 (2 * M_PI) - rel.angle) else rel.angle

/-- A reading that ends the turn: it is not ignored and its corrected angle exceeds the
target. -/
def specTurnDone (target : ℚ) (desired : Vector3) (rel : Rotation) : Prop :=
  ¬ specIgnored rel ∧ target < specAngleTurned desired rel

instance specIgnored_decidable (rel : Rotation) : Decidable (specIgnored rel) := by
  unfold specIgnored
  infer_instance

instance specTurnDone_decidable (target : ℚ) (desired : Vector3) (rel : Rotation) :
    Decidable (specTurnDone target desired rel) := by
  unfold specTurnDone
  infer_instance

/-- The common shape of the two polling loops, used to reason about both at once: the loop
ends with `true` at the first reading that satisfies `hit`, with `false` at the first failed
lookup or when the node is shut down. -/
def pollLoop {α : Type} (hit : α → Bool) (base_cmd : Twist) :
    List (Poll α) → List Twist → Run
  | [], out => { result := none, published := out }
  | p :: rest, out =>
    if p.ok = false then { result := some false, published := out }
    else
      match p.lookup with
      | none => { result := some false, published := out ++ [base_cmd] }
      | some r =>
        if hit r then { result := some true, published := out ++ [base_cmd] }
        else pollLoop hit base_cmd rest (out ++ [base_cmd])

/-- The polls `pre` neither fail nor satisfy `hit`. -/
def Quiet {α : Type} (hit : α → Bool) (pre : List (Poll α)) : Prop :=
  ∀ q ∈ pre, ∃ r, q.lookup = some r ∧ hit r = false

/-! ## Binary64 rounding: general facts -/

theorem roundNearestEven_cases (y : ℚ) :
    roundNearestEven y = ⌊y⌋ ∧ y - ⌊y⌋ ≤ 1 / 2 ∨
    roundNearestEven y = ⌊y⌋ + 1 ∧ 1 / 2 ≤ y - ⌊y⌋ := by
  unfold roundNearestEven
  split
  · left; exact ⟨rfl, by linarith⟩
  · split
    · right; exact ⟨rfl, by linarith⟩
    · have h : y - ⌊y⌋ = 1 / 2 := le_antisymm (by linarith) (by linarith)
      split
      · left; exact ⟨rfl, h.le⟩
      · right; exact ⟨rfl, h.ge⟩

theorem roundNearestEven_abs_sub_le (y : ℚ) : |(roundNearestEven y : ℚ) - y| ≤ 1 / 2 := by
  have h0 := Int.floor_le y
  have h1 := Int.lt_floor_add_one y
  rcases roundNearestEven_cases y with ⟨h, hy⟩ | ⟨h, hy⟩
  · rw [h, abs_le]; constructor <;> linarith
  · rw [h, abs_le]; push_cast; constructor <;> linarith

theorem roundNearestEven_eq_of_abs_lt {y : ℚ} {n : Int} (h : |y - n| < 1 / 2) :
    roundNearestEven y = n := by
  have hb := abs_lt.mp h
  have h0 := Int.floor_le y
  have h1 := Int.lt_floor_add_one y
  rcases roundNearestEven_cases y with ⟨hr, hy⟩ | ⟨hr, hy⟩
  · rw [hr]
    have h2 : ((⌊y⌋ : Int) : ℚ) < n + 1 := by linarith [hb.2]
    have h3 : (n : ℚ) - 1 < ⌊y⌋ := by linarith [hb.1]
    have h2' : ⌊y⌋ < n + 1 := by exact_mod_cast h2
    have h3' : n - 1 < ⌊y⌋ := by exact_mod_cast h3
    omega
  · rw [hr]
    have h2 : ((⌊y⌋ : Int) : ℚ) + 1 < n + 1 := by linarith [hb.2]
    have h3 : (n : ℚ) - 1 < ⌊y⌋ + 1 := by linarith [hb.1]
    have h2' : ⌊y⌋ + 1 < n + 1 := by exact_mod_cast h2
    have h3' : n - 1 < ⌊y⌋ + 1 := by exact_mod_cast h3
    omega

theorem roundNearestEven_le_of_le {y : ℚ} {n : Int} (h : y ≤ n) : roundNearestEven y ≤ n := by
  have h0 := Int.floor_le y
  rcases roundNearestEven_cases y with ⟨hr, hy⟩ | ⟨hr, hy⟩
  · rw [hr]
    have : ((⌊y⌋ : Int) : ℚ) ≤ n := by linarith
    exact_mod_cast this
  · rw [hr]
    have : ((⌊y⌋ : Int) : ℚ) < n := by linarith
    have h' : ⌊y⌋ < n := by exact_mod_cast this
    omega

theorem roundNearestEven_ge_of_ge {y : ℚ} {n : Int} (h : (n : ℚ) ≤ y) :
    n ≤ roundNearestEven y := by
  have h0 : n ≤ ⌊y⌋ := Int.le_floor.mpr h
  rcases roundNearestEven_cases y with ⟨hr, hy⟩ | ⟨hr, hy⟩
  · rw [hr]; exact h0
  · rw [hr]; omega

theorem two_zpow_pos (e : Int) : (0 : ℚ) < 2 ^ e := zpow_pos (by norm_num) e

theorem two_zpow_le {a b : Int} (h : a ≤ b) : (2 : ℚ) ^ a ≤ 2 ^ b :=
  zpow_le_zpow_right₀ (by norm_num) h

theorem ulpExp_ge (x : ℚ) : -1074 ≤ ulpExp x := le_max_right _ _

theorem round64_abs_sub_le (x : ℚ) : |round64 x - x| ≤ 2 ^ ulpExp x / 2 := by
  have hp := two_zpow_pos (ulpExp x)
  have h := roundNearestEven_abs_sub_le (x / 2 ^ ulpExp x)
  have : round64 x - x
      = ((roundNearestEven (x / 2 ^ ulpExp x) : ℚ) - x / 2 ^ ulpExp x) * 2 ^ ulpExp x := by
    unfold round64
    field_simp
  rw [this, abs_mul, abs_of_pos hp]
  calc |((roundNearestEven (x / 2 ^ ulpExp x) : ℚ) - x / 2 ^ ulpExp x)| * 2 ^ ulpExp x
      ≤ 1 / 2 * 2 ^ ulpExp x := mul_le_mul_of_nonneg_right h hp.le
    _ = 2 ^ ulpExp x / 2 := by ring

theorem round64_nonneg {x : ℚ} (h : 0 ≤ x) : 0 ≤ round64 x := by
  have hp := two_zpow_pos (ulpExp x)
  unfold round64
  have : (0 : Int) ≤ roundNearestEven (x / 2 ^ ulpExp x) :=
    roundNearestEven_ge_of_ge (by simpa using div_nonneg h hp.le)
  have h' : (0 : ℚ) ≤ roundNearestEven (x / 2 ^ ulpExp x) := by exact_mod_cast this
  exact mul_nonneg h' hp.le

theorem round64_nonpos {x : ℚ} (h : x ≤ 0) : round64 x ≤ 0 := by
  have hp := two_zpow_pos (ulpExp x)
  unfold round64
  have : roundNearestEven (x / 2 ^ ulpExp x) ≤ (0 : Int) :=
    roundNearestEven_le_of_le (by simpa using div_nonpos_of_nonpos_of_nonneg h hp.le)
  have h' : (roundNearestEven (x / 2 ^ ulpExp x) : ℚ) ≤ 0 := by exact_mod_cast this
  exact mul_nonpos_of_nonpos_of_nonneg h' hp.le

theorem round64_zero : round64 0 = 0 :=
  le_antisymm (round64_nonpos le_rfl) (round64_nonneg le_rfl)

theorem log_eq_of_bounds {x : ℚ} {k : Int} (h1 : 2 ^ k ≤ x) (h2 : x < 2 ^ (k + 1)) :
    Int.log 2 x = k := by
  have hx : 0 < x := lt_of_lt_of_le (two_zpow_pos k) h1
  have a : k ≤ Int.log 2 x :=
    (Int.zpow_le_iff_le_log (by norm_num) hx).mp (by exact_mod_cast h1)
  have b : Int.log 2 x < k + 1 :=
    (Int.lt_zpow_iff_log_lt (by norm_num) hx).mp (by exact_mod_cast h2)
  omega

/-- Evaluation of `round64` at a number of a known binade. -/
theorem round64_eq {x : ℚ} (k n : Int) (hk : -1022 ≤ k) (h1 : 2 ^ k ≤ |x|)
    (h2 : |x| < 2 ^ (k + 1)) (h3 : |x / 2 ^ (k - 52) - n| < 1 / 2) :
    round64 x = n * 2 ^ (k - 52) := by
  have he : ulpExp x = k - 52 := by
    unfold ulpExp
    rw [log_eq_of_bounds h1 h2]
    omega
  unfold round64
  rw [he, roundNearestEven_eq_of_abs_lt h3]

/-- The rounding error of `round64`: half a unit in the last place, which is at most the
relative error `2^-53` in the normal range and `2^-1075` in the subnormal range. -/
theorem round64_error (x : ℚ) :
    |round64 x - x| ≤ 2 ^ (-53 : Int) * |x| + 2 ^ (-1075 : Int) := by
  have hb := round64_abs_sub_le x
  have h53 := two_zpow_pos (-53)
  have h1075 := two_zpow_pos (-1075)
  by_cases hx : x = 0
  · subst hx
    rw [round64_zero]
    simp only [sub_zero, abs_zero, mul_zero, zero_add]
    exact h1075.le
  · have hpos : 0 < |x| := abs_pos.mpr hx
    have hlog : (2 : ℚ) ^ Int.log 2 |x| ≤ |x| := by
      have := Int.zpow_log_le_self (b := 2) (by norm_num) hpos
      exact_mod_cast this
    rcases le_total (Int.log 2 |x| - 52) (-1074) with hc | hc
    · have he : ulpExp x = -1074 := by unfold ulpExp; exact max_eq_right hc
      rw [he] at hb
      have : (2 : ℚ) ^ (-1074 : Int) / 2 = 2 ^ (-1075 : Int) := by norm_num
      rw [this] at hb
      have : 0 ≤ (2 : ℚ) ^ (-53 : Int) * |x| := mul_nonneg h53.le hpos.le
      linarith
    · have he : ulpExp x = Int.log 2 |x| - 52 := by unfold ulpExp; exact max_eq_left hc
      rw [he] at hb
      have hsplit : (2 : ℚ) ^ (Int.log 2 |x| - 52) / 2 = 2 ^ (-53 : Int) * 2 ^ Int.log 2 |x| := by
        rw [show Int.log 2 |x| - 52 = Int.log 2 |x| + (-52) by ring,
          zpow_add₀ (by norm_num : (2 : ℚ) ≠ 0)]
        norm_num
        ring
      rw [hsplit] at hb
      have : (2 : ℚ) ^ (-53 : Int) * 2 ^ Int.log 2 |x| ≤ 2 ^ (-53 : Int) * |x| :=
        mul_le_mul_of_nonneg_left hlog h53.le
      linarith

/-- A positive number that `round64` leaves unchanged is at least the least subnormal. -/
theorem ge_min_of_round64_eq {v : ℚ} (hv : 0 < v) (h : round64 v = v) :
    2 ^ (-1074 : Int) ≤ v := by
  have hp := two_zpow_pos (ulpExp v)
  unfold round64 at h
  have hn : 0 < roundNearestEven (v / 2 ^ ulpExp v) := by
    by_contra hcon
    have hle : roundNearestEven (v / 2 ^ ulpExp v) ≤ 0 := not_lt.mp hcon
    have hle' : (roundNearestEven (v / 2 ^ ulpExp v) : ℚ) ≤ 0 := by exact_mod_cast hle
    have := mul_nonpos_of_nonpos_of_nonneg hle' hp.le
    linarith
  have hn1 : (1 : ℚ) ≤ roundNearestEven (v / 2 ^ ulpExp v) := by exact_mod_cast hn
  calc (2 : ℚ) ^ (-1074 : Int) ≤ 2 ^ ulpExp v := two_zpow_le (ulpExp_ge v)
    _ = 1 * 2 ^ ulpExp v := (one_mul _).symm
    _ ≤ roundNearestEven (v / 2 ^ ulpExp v) * 2 ^ ulpExp v :=
        mul_le_mul_of_nonneg_right hn1 hp.le
    _ = v := h

theorem M_PI_pos : 0 < M_PI := by norm_num [M_PI]

theorem fdiv_of_ne (a : ℚ) {b : ℚ} (h : b ≠ 0) : fdiv a b = .ok (a / b) := by
  simp [fdiv, h]

theorem fdiv_zero (a : ℚ) : fdiv a 0 = .error .divByZero := by
  simp [fdiv]

theorem trunc_of_nonneg {x : ℚ} (h : 0 ≤ x) : trunc x = ⌊x⌋ := by
  simp [trunc, h]

theorem trunc_of_neg {x : ℚ} (h : x < 0) : trunc x = ⌈x⌉ := by
  simp [trunc, not_le.mpr h]

theorem trunc_nonneg {x : ℚ} (h : 0 ≤ x) : 0 ≤ trunc x := by
  rw [trunc_of_nonneg h]
  exact Int.floor_nonneg.mpr h

theorem trunc_nonpos {x : ℚ} (h : x ≤ 0) : trunc x ≤ 0 := by
  rcases h.lt_or_eq with h | h
  · rw [trunc_of_neg h]
    exact Int.ceil_le.mpr (by exact_mod_cast h.le)
  · subst h
    simp [trunc]

theorem trunc_eq_of_floor {x : ℚ} {n : Int} (h0 : 0 ≤ x) (h1 : (n : ℚ) ≤ x)
    (h2 : x < n + 1) : trunc x = n := by
  rw [trunc_of_nonneg h0, Int.floor_eq_iff]
  exact ⟨h1, h2⟩

theorem trunc_eq_of_ceil {x : ℚ} {n : Int} (h0 : x < 0) (h1 : (n : ℚ) - 1 < x)
    (h2 : x ≤ n) : trunc x = n := by
  rw [trunc_of_neg h0, Int.ceil_eq_iff]
  exact ⟨h1, h2⟩

theorem toInt_of_range {x : ℚ} (h1 : INT_MIN ≤ trunc x) (h2 : trunc x ≤ INT_MAX) :
    toInt (.fin x) = .ok (trunc x) := by
  simp [toInt, h1, h2]

theorem imul_of_range {a b : Int} (h1 : INT_MIN ≤ a * b) (h2 : a * b ≤ INT_MAX) :
    imul a b = .ok (a * b) := by
  simp [imul, h1, h2]

theorem ofRat_of_round64 {x y : ℚ} (h : round64 x = y) (hy : |y| ≤ DBL_MAX) :
    F64.ofRat x = .fin y := by
  unfold F64.ofRat
  rw [h, if_neg (not_lt.mpr hy)]

theorem ofRat_zero : F64.ofRat 0 = .fin 0 :=
  ofRat_of_round64 round64_zero (by norm_num [DBL_MAX])

theorem round64_twenty : round64 (10 * 2) = 20 := by
  rw [round64_eq 4 5629499534213120 (by norm_num) (by norm_num [abs_of_pos])
    (by norm_num [abs_of_pos]) (by norm_num [abs_of_pos])]
  norm_num

theorem round64_twenty_pi : round64 (20 * M_PI) = 20 * M_PI := by
  rw [round64_eq 5 8842797190035550 (by norm_num) (by norm_num [M_PI, abs_of_pos])
    (by norm_num [M_PI, abs_of_pos]) (by norm_num [M_PI, abs_of_pos])]
  norm_num [M_PI]

/-- The constant factor of line 154: `rateFrequency * 2 * M_PI` is `20 * M_PI` without any
rounding error. -/
theorem mul_constants :
    F64.mul (F64.mul (.fin 10) (.fin 2)) (.fin M_PI) = .fin (20 * M_PI) := by
  have h1 : F64.mul (.fin 10) (.fin 2) = .fin 20 :=
    ofRat_of_round64 round64_twenty (by norm_num [DBL_MAX])
  rw [h1]
  exact ofRat_of_round64 round64_twenty_pi (by norm_num [DBL_MAX, M_PI, abs_of_pos])

/-! ## `moveCyclically`: the tick count and the published commands -/

theorem perCircle_eq_div (radius velocity : ℚ) :
    perCircle radius velocity
      = F64.div (F64.ofRat (20 * M_PI * radius)) (.fin velocity) := by
  show F64.div (F64.mul (F64.mul (F64.mul (.fin 10) (.fin 2)) (.fin M_PI)) (.fin radius))
    (.fin velocity) = _
  rw [mul_constants]
  rfl

theorem div_fin_zero (a : F64) : F64.div a (.fin 0) = .error .divByZero := by
  cases a <;> simp [F64.div, fdiv, bind, Except.bind]

theorem div_fin_of_ne (a : F64) {b : ℚ} (hb : b ≠ 0) : ∃ q, F64.div a (.fin b) = .ok q := by
  cases a with
  | fin a => exact ⟨F64.ofRat (a / b), by simp [F64.div, fdiv, hb, bind, Except.bind]⟩
  | inf n => exact ⟨.inf (xor n (decide (b < 0))), by simp [F64.div, hb]⟩
  | nan => exact ⟨.nan, by simp [F64.div, hb]⟩

theorem div_fin_fin (a : ℚ) {b : ℚ} (hb : b ≠ 0) :
    F64.div (.fin a) (.fin b) = .ok (F64.ofRat (a / b)) := by
  simp [F64.div, fdiv, hb, bind, Except.bind]

theorem perCircle_velocity_zero (radius : ℚ) : perCircle radius 0 = .error .divByZero := by
  rw [perCircle_eq_div]
  exact div_fin_zero _

theorem perCircle_of_ne (radius : ℚ) {velocity : ℚ} (hv : velocity ≠ 0) :
    ∃ q, perCircle radius velocity = .ok q := by
  rw [perCircle_eq_div]
  exact div_fin_of_ne _ hv

/-- Evaluation of the quotient of line 154 from its two roundings. -/
theorem perCircle_eq_of (radius velocity p q : ℚ) (hv : velocity ≠ 0)
    (hp : round64 (20 * M_PI * radius) = p) (hpm : |p| ≤ DBL_MAX)
    (hq : round64 (p / velocity) = q) (hqm : |q| ≤ DBL_MAX) :
    perCircle radius velocity = .ok (.fin q) := by
  rw [perCircle_eq_div, ofRat_of_round64 hp hpm, div_fin_fin _ hv, ofRat_of_round64 hq hqm]

/-- A finite quotient of line 154 is the rounding of the rounded product divided by
`velocity`. -/
theorem perCircle_fin_inv {radius velocity q : ℚ} (hv : velocity ≠ 0)
    (h : perCircle radius velocity = .ok (.fin q)) :
    q = round64 (round64 (20 * M_PI * radius) / velocity) := by
  rw [perCircle_eq_div] at h
  unfold F64.ofRat at h
  split at h
  · simp [F64.div, hv] at h
  · rw [div_fin_fin _ hv] at h
    unfold F64.ofRat at h
    split at h
    · simp at h
    · simpa using h.symm

theorem perCircle_radius_zero {velocity : ℚ} (hv : velocity ≠ 0) :
    perCircle 0 velocity = .ok (.fin 0) := by
  rw [perCircle_eq_div, mul_zero, ofRat_zero, div_fin_fin _ hv, zero_div, ofRat_zero]

theorem msgNumber_of_perCircle (radius velocity : ℚ) (times : Int) (q : ℚ)
    (hq : perCircle radius velocity = .ok (.fin q))
    (h1 : INT_MIN ≤ trunc q) (h2 : trunc q ≤ INT_MAX)
    (h3 : INT_MIN ≤ times * trunc q) (h4 : times * trunc q ≤ INT_MAX) :
    msgNumber radius velocity times = .ok (times * trunc q) := by
  unfold msgNumber
  rw [hq]
  show (toInt (.fin q) >>= fun n => imul times n) = _
  rw [toInt_of_range h1 h2]
  exact imul_of_range h3 h4

theorem msgNumber_of_trunc (radius velocity : ℚ) (times : Int) (q : ℚ) (k : Int)
    (hq : perCircle radius velocity = .ok (.fin q)) (hk : trunc q = k)
    (h1 : INT_MIN ≤ k) (h2 : k ≤ INT_MAX) (h3 : INT_MIN ≤ times * k)
    (h4 : times * k ≤ INT_MAX) : msgNumber radius velocity times = .ok (times * k) := by
  subst hk
  exact msgNumber_of_perCircle radius velocity times q hq h1 h2 h3 h4

theorem msgNumber_of_product_gt (radius velocity : ℚ) (times : Int) (q : ℚ) (k : Int)
    (hq : perCircle radius velocity = .ok (.fin q)) (hk : trunc q = k)
    (h1 : INT_MIN ≤ k) (h2 : k ≤ INT_MAX) (h4 : INT_MAX < times * k) :
    msgNumber radius velocity times = .error .intRange := by
  subst hk
  unfold msgNumber
  rw [hq]
  show (toInt (.fin q) >>= fun n => imul times n) = _
  rw [toInt_of_range h1 h2]
  show imul _ _ = _
  simp [imul, not_le.mpr h4]

theorem msgNumber_velocity_zero (radius : ℚ) (times : Int) :
    msgNumber radius 0 times = .error .divByZero := by
  unfold msgNumber
  rw [perCircle_velocity_zero]
  rfl

theorem toInt_ne_divByZero (q : F64) (times : Int) :
    (toInt q >>= fun n => imul times n) ≠ .error .divByZero := by
  cases q with
  | fin x =>
    by_cases h : INT_MIN ≤ trunc x ∧ trunc x ≤ INT_MAX
    · rw [toInt_of_range h.1 h.2]
      show imul _ _ ≠ _
      unfold imul
      split <;> simp
    · simp [toInt, h, bind, Except.bind]
  | inf n => simp [toInt, bind, Except.bind]
  | nan => simp [toInt, bind, Except.bind]

theorem msgNumber_ne_divByZero (radius velocity : ℚ) (times : Int) (hv : velocity ≠ 0) :
    msgNumber radius velocity times ≠ .error .divByZero := by
  obtain ⟨q, hq⟩ := perCircle_of_ne radius hv
  unfold msgNumber
  rw [hq]
  exact toInt_ne_divByZero q times

theorem publishLoop_ok (base_cmd : Twist) (k : Nat) :
    ∀ (msg_number : Int) (out : List Twist), INT_MIN < msg_number →
      (msg_number - 1).toNat = k →
      publishLoop base_cmd msg_number out = .ok (out ++ List.replicate k base_cmd) := by
  induction k with
  | zero =>
    intro n out h hk
    unfold publishLoop
    have h1 : ¬ (n - 1 < INT_MIN) := by unfold INT_MIN at *; omega
    have h2 : ¬ (0 < n - 1) := by omega
    simp [h1, h2]
  | succ k ih =>
    intro n out h hk
    unfold publishLoop
    have h1 : ¬ (n - 1 < INT_MIN) := by unfold INT_MIN at *; omega
    have h2 : 0 < n - 1 := by omega
    simp only [h1, h2, if_true, if_false]
    rw [ih (n - 1) (out ++ [base_cmd]) (by unfold INT_MIN at *; omega) (by omega)]
    simp [List.replicate_succ]

theorem publishLoop_overflow (base_cmd : Twist) (msg_number : Int) (out : List Twist)
    (h : msg_number ≤ INT_MIN) : publishLoop base_cmd msg_number out = .error .intRange := by
  unfold publishLoop
  have h1 : msg_number - 1 < INT_MIN := by omega
  simp [h1]

theorem moveCyclically_of_msgNumber (radius velocity : ℚ) (times n : Int) (hr : radius ≠ 0)
    (hn : msgNumber radius velocity times = .ok n) (hmin : INT_MIN < n) :
    moveCyclically radius velocity times
      = .ok (List.replicate (n - 1).toNat (specMotionCommand velocity radius)
              ++ [specStopCommand]) := by
  unfold moveCyclically
  rw [fdiv_of_ne _ hr]
  show (msgNumber radius velocity times >>= fun m => _) = _
  rw [hn]
  show (publishLoop _ n [] >>= fun p => _) = _
  rw [publishLoop_ok _ _ n [] hmin rfl]
  rfl

theorem moveCyclically_radius_zero (velocity : ℚ) (times : Int) :
    moveCyclically 0 velocity times = .error .divByZero := by
  unfold moveCyclically
  rw [fdiv_zero]
  rfl

theorem moveCyclically_of_msgNumber_min (radius velocity : ℚ) (times n : Int) (hr : radius ≠ 0)
    (hn : msgNumber radius velocity times = .ok n) (hmin : n ≤ INT_MIN) :
    moveCyclically radius velocity times = .error .intRange := by
  unfold moveCyclically
  rw [fdiv_of_ne _ hr]
  show (msgNumber radius velocity times >>= fun m => _) = _
  rw [hn]
  show (publishLoop _ n [] >>= fun p => _) = _
  rw [publishLoop_overflow _ n [] hmin]
  rfl

theorem moveCyclically_of_msgNumber_error (radius velocity : ℚ) (times : Int) (e : Fault)
    (hr : radius ≠ 0) (hn : msgNumber radius velocity times = .error e) :
    moveCyclically radius velocity times = .error e := by
  unfold moveCyclically
  rw [fdiv_of_ne _ hr]
  show (msgNumber radius velocity times >>= fun m => _) = _
  rw [hn]
  rfl

theorem moveCyclically_ok_inv (radius velocity : ℚ) (times : Int) (trace : List Twist)
    (hr : radius ≠ 0) (h : moveCyclically radius velocity times = .ok trace) :
    ∃ n : Int, msgNumber radius velocity times = .ok n ∧ INT_MIN < n ∧
      trace = List.replicate (n - 1).toNat (specMotionCommand velocity radius)
                ++ [specStopCommand] := by
  cases hm : msgNumber radius velocity times with
  | error e =>
    rw [moveCyclically_of_msgNumber_error radius velocity times e hr hm] at h
    cases h
  | ok n =>
    by_cases hmin : n ≤ INT_MIN
    · rw [moveCyclically_of_msgNumber_min radius velocity times n hr hm hmin] at h
      cases h
    · have hlt : INT_MIN < n := not_le.mp hmin
      rw [moveCyclically_of_msgNumber radius velocity times n hr hm hlt] at h
      exact ⟨n, rfl, hlt, (Except.ok.inj h).symm⟩

theorem moveCyclically_ne_divByZero (radius velocity : ℚ) (times : Int) (hr : radius ≠ 0)
    (hv : velocity ≠ 0) : moveCyclically radius velocity times ≠ .error .divByZero := by
  cases hm : msgNumber radius velocity times with
  | error e =>
    rw [moveCyclically_of_msgNumber_error radius velocity times e hr hm]
    intro h
    have he : e = .divByZero := Except.error.inj h
    subst he
    exact msgNumber_ne_divByZero radius velocity times hv hm
  | ok n =>
    by_cases hmin : n ≤ INT_MIN
    · rw [moveCyclically_of_msgNumber_min radius velocity times n hr hm hmin]
      simp
    · rw [moveCyclically_of_msgNumber radius velocity times n hr hm (not_le.mp hmin)]
      simp

/-! ## The quotient of line 154 at the inputs of the examples -/

theorem perCircle_unit_circle :
    perCircle 1 1 = .ok (.fin (4421398595017775 / 70368744177664)) :=
  perCircle_eq_of 1 1
    (4421398595017775 / 70368744177664)
    (4421398595017775 / 70368744177664) (by norm_num)
    (by
    rw [round64_eq 5 8842797190035550 (by norm_num) (by norm_num [M_PI, abs_of_pos])
      (by norm_num [M_PI, abs_of_pos]) (by norm_num [M_PI, abs_of_pos])]
    norm_num [M_PI])
    (by norm_num [DBL_MAX, abs_of_pos])
    (by
    rw [round64_eq 5 8842797190035550 (by norm_num) (by norm_num [M_PI, abs_of_pos])
      (by norm_num [M_PI, abs_of_pos]) (by norm_num [M_PI, abs_of_pos])]
    norm_num [M_PI])
    (by norm_num [DBL_MAX, abs_of_pos])

theorem trunc_unit_circle : trunc (4421398595017775 / 70368744177664) = 62 :=
  trunc_eq_of_floor (by norm_num) (by norm_num) (by norm_num)

theorem perCircle_request_2_5 :
    perCircle 5 2 = .ok (.fin (5526748243772219 / 35184372088832)) :=
  perCircle_eq_of 5 2
    (5526748243772219 / 17592186044416)
    (5526748243772219 / 35184372088832) (by norm_num)
    (by
    rw [round64_eq 8 5526748243772219 (by norm_num) (by norm_num [M_PI, abs_of_pos])
      (by norm_num [M_PI, abs_of_pos]) (by norm_num [M_PI, abs_of_pos])]
    norm_num [M_PI])
    (by norm_num [DBL_MAX, abs_of_pos])
    (by
    rw [round64_eq 7 5526748243772219 (by norm_num) (by norm_num [M_PI, abs_of_pos])
      (by norm_num [M_PI, abs_of_pos]) (by norm_num [M_PI, abs_of_pos])]
    norm_num [M_PI])
    (by norm_num [DBL_MAX, abs_of_pos])

theorem trunc_request_2_5 : trunc (5526748243772219 / 35184372088832) = 157 :=
  trunc_eq_of_floor (by norm_num) (by norm_num) (by norm_num)

theorem perCircle_radius_4000000 :
    perCircle 4000000 1 = .ok (.fin (4216574282663131 / 16777216)) :=
  perCircle_eq_of 4000000 1
    (4216574282663131 / 16777216)
    (4216574282663131 / 16777216) (by norm_num)
    (by
    rw [round64_eq 27 8433148565326262 (by norm_num) (by norm_num [M_PI, abs_of_pos])
      (by norm_num [M_PI, abs_of_pos]) (by norm_num [M_PI, abs_of_pos])]
    norm_num [M_PI])
    (by norm_num [DBL_MAX, abs_of_pos])
    (by
    rw [round64_eq 27 8433148565326262 (by norm_num) (by norm_num [M_PI, abs_of_pos])
      (by norm_num [M_PI, abs_of_pos]) (by norm_num [M_PI, abs_of_pos])]
    norm_num [M_PI])
    (by norm_num [DBL_MAX, abs_of_pos])

theorem trunc_radius_4000000 : trunc (4216574282663131 / 16777216) = 251327412 :=
  trunc_eq_of_floor (by norm_num) (by norm_num) (by norm_num)

theorem perCircle_velocity_40 :
    perCircle 1 40 = .ok (.fin (884279719003555 / 562949953421312)) :=
  perCircle_eq_of 1 40
    (4421398595017775 / 70368744177664)
    (884279719003555 / 562949953421312) (by norm_num)
    (by
    rw [round64_eq 5 8842797190035550 (by norm_num) (by norm_num [M_PI, abs_of_pos])
      (by norm_num [M_PI, abs_of_pos]) (by norm_num [M_PI, abs_of_pos])]
    norm_num [M_PI])
    (by norm_num [DBL_MAX, abs_of_pos])
    (by
    rw [round64_eq 0 7074237752028440 (by norm_num) (by norm_num [M_PI, abs_of_pos])
      (by norm_num [M_PI, abs_of_pos]) (by norm_num [M_PI, abs_of_pos])]
    norm_num [M_PI])
    (by norm_num [DBL_MAX, abs_of_pos])

theorem trunc_velocity_40 : trunc (884279719003555 / 562949953421312) = 1 :=
  trunc_eq_of_floor (by norm_num) (by norm_num) (by norm_num)

theorem perCircle_rounded_up :
    perCircle 1 (5895198126690367 / 281474976710656) = .ok (.fin 3) :=
  perCircle_eq_of 1 (5895198126690367 / 281474976710656)
    (4421398595017775 / 70368744177664)
    3 (by norm_num)
    (by
    rw [round64_eq 5 8842797190035550 (by norm_num) (by norm_num [M_PI, abs_of_pos])
      (by norm_num [M_PI, abs_of_pos]) (by norm_num [M_PI, abs_of_pos])]
    norm_num [M_PI])
    (by norm_num [DBL_MAX, abs_of_pos])
    (by
    rw [round64_eq 1 6755399441055744 (by norm_num) (by norm_num [M_PI, abs_of_pos])
      (by norm_num [M_PI, abs_of_pos]) (by norm_num [M_PI, abs_of_pos])]
    norm_num [M_PI])
    (by norm_num [DBL_MAX, abs_of_pos])

theorem trunc_rounded_up : trunc 3 = 3 :=
  trunc_eq_of_floor (by norm_num) (by norm_num) (by norm_num)

theorem perCircle_backwards :
    perCircle 1 (-1) = .ok (.fin (-(4421398595017775 / 70368744177664))) :=
  perCircle_eq_of 1 (-1)
    (4421398595017775 / 70368744177664)
    (-(4421398595017775 / 70368744177664)) (by norm_num)
    (by
    rw [round64_eq 5 8842797190035550 (by norm_num) (by norm_num [M_PI, abs_of_pos])
      (by norm_num [M_PI, abs_of_pos]) (by norm_num [M_PI, abs_of_pos])]
    norm_num [M_PI])
    (by norm_num [DBL_MAX, abs_of_pos])
    (by
    rw [round64_eq 5 (-8842797190035550) (by norm_num) (by norm_num [M_PI, abs_of_pos])
      (by norm_num [M_PI, abs_of_pos]) (by norm_num [M_PI, abs_of_pos])]
    norm_num [M_PI])
    (by norm_num [DBL_MAX, abs_of_pos])

theorem trunc_backwards : trunc (-(4421398595017775 / 70368744177664)) = (-62) :=
  trunc_eq_of_ceil (by norm_num) (by norm_num) (by norm_num)

theorem round64_two : round64 2 = 2 := by
    rw [round64_eq 1 4503599627370496 (by norm_num) (by norm_num [M_PI, abs_of_pos])
      (by norm_num [M_PI, abs_of_pos]) (by norm_num [M_PI, abs_of_pos])]
    norm_num [M_PI]

theorem perCircle_radius_78256779 :
    perCircle 78256779 40 = .ok (.fin 122925461) :=
  perCircle_eq_of 78256779 40
    4917018440
    122925461 (by norm_num)
    (by
    rw [round64_eq 32 5155867527741440 (by norm_num) (by norm_num [M_PI, abs_of_pos])
      (by norm_num [M_PI, abs_of_pos]) (by norm_num [M_PI, abs_of_pos])]
    norm_num [M_PI])
    (by norm_num [DBL_MAX, abs_of_pos])
    (by
    rw [round64_eq 26 8249388044386304 (by norm_num) (by norm_num [M_PI, abs_of_pos])
      (by norm_num [M_PI, abs_of_pos]) (by norm_num [M_PI, abs_of_pos])]
    norm_num [M_PI])
    (by norm_num [DBL_MAX, abs_of_pos])

theorem trunc_radius_78256779 : trunc 122925461 = 122925461 :=
  trunc_eq_of_floor (by norm_num) (by norm_num) (by norm_num)

/-- The tick count at `radius = 78256779`, `velocity = 40`, `times = 10`: the binary64 quotient
is exactly 122925461, where the exact quotient `10 * 2 * M_PI * radius / velocity` lies just
below that integer. -/
theorem msgNumber_radius_78256779 :
    msgNumber 78256779 40 10 = .ok 1229254610 ∧
    ⌊(10 * 2 * M_PI * 78256779 / 40 : ℚ)⌋ = 122925460 := by
  constructor
  · have h := msgNumber_of_trunc 78256779 40 10 _ 122925461 perCircle_radius_78256779
      trunc_radius_78256779 (by decide) (by decide) (by decide) (by decide)
    simpa using h
  · rw [Int.floor_eq_iff]
    constructor <;> norm_num [M_PI]

/-! ## The error of the quotient of line 154 -/

theorem floor_sub_floor_le_one {a b : ℚ} (h : |a - b| < 1) : |⌊a⌋ - ⌊b⌋| ≤ 1 := by
  have hb := abs_lt.mp h
  have a0 := Int.floor_le a
  have a1 := Int.lt_floor_add_one a
  have b0 := Int.floor_le b
  have b1 := Int.lt_floor_add_one b
  have h1 : ((⌊a⌋ : Int) : ℚ) < ⌊b⌋ + 2 := by linarith [hb.2]
  have h2 : ((⌊b⌋ : Int) : ℚ) < ⌊a⌋ + 2 := by linarith [hb.1]
  have h1' : ⌊a⌋ < ⌊b⌋ + 2 := by exact_mod_cast h1
  have h2' : ⌊b⌋ < ⌊a⌋ + 2 := by exact_mod_cast h2
  rw [abs_le]
  constructor <;> omega

/-- The binary64 quotient of line 154 is within `3/4` of the exact quotient
`10 * 2 * M_PI * radius / velocity`, for positive operands and a quotient below `2^31 + 1`. -/
theorem perCircle_error {radius velocity q : ℚ} (hr : 0 < radius) (hv : 0 < velocity)
    (hd : round64 velocity = velocity) (hq : perCircle radius velocity = .ok (.fin q))
    (hlt : q < 2147483649) :
    |q - 10 * 2 * M_PI * radius / velocity| ≤ 3 / 4 := by
  have hpi := M_PI_pos
  have hq' := perCircle_fin_inv hv.ne' hq
  have hmin := ge_min_of_round64_eq hv hd
  have hx : 0 < 20 * M_PI * radius := by positivity
  have e1 := round64_error (20 * M_PI * radius)
  have e2 := round64_error (round64 (20 * M_PI * radius) / velocity)
  have hp0 : 0 ≤ round64 (20 * M_PI * radius) := round64_nonneg hx.le
  rw [abs_of_pos hx] at e1
  rw [abs_of_nonneg (div_nonneg hp0 hv.le), ← hq'] at e2
  have heta : (2 : ℚ) ^ (-1075 : Int) ≤ 1 / 2 ^ 60 := by norm_num
  have heta0 := two_zpow_pos (-1075)
  have heps : (2 : ℚ) ^ (-53 : Int) = 1 / 9007199254740992 := by norm_num
  rw [heps] at e1 e2
  -- the error of the product, carried through the division
  have hdiv : (2 : ℚ) ^ (-1075 : Int) / velocity ≤ 1 / 2 := by
    rw [div_le_iff₀ hv]
    have : (2 : ℚ) ^ (-1075 : Int) = 1 / 2 * 2 ^ (-1074 : Int) := by norm_num
    rw [this]
    exact mul_le_mul_of_nonneg_left hmin (by norm_num)
  have e1' : |round64 (20 * M_PI * radius) / velocity - 20 * M_PI * radius / velocity|
      ≤ 1 / 9007199254740992 * (20 * M_PI * radius / velocity) + 1 / 2 := by
    rw [← sub_div, abs_div, abs_of_pos hv]
    calc |round64 (20 * M_PI * radius) - 20 * M_PI * radius| / velocity
        ≤ (1 / 9007199254740992 * (20 * M_PI * radius) + 2 ^ (-1075 : Int)) / velocity :=
          div_le_div_of_nonneg_right e1 hv.le
      _ = 1 / 9007199254740992 * (20 * M_PI * radius / velocity)
            + 2 ^ (-1075 : Int) / velocity := by ring
      _ ≤ _ := by linarith
  have hA : 0 ≤ 20 * M_PI * radius / velocity := div_nonneg hx.le hv.le
  have hB : 0 ≤ round64 (20 * M_PI * radius) / velocity := div_nonneg hp0 hv.le
  have hAeq : 10 * 2 * M_PI * radius / velocity = 20 * M_PI * radius / velocity := by ring
  rw [hAeq]
  generalize 20 * M_PI * radius / velocity = A at *
  generalize round64 (20 * M_PI * radius) / velocity = B at *
  generalize (2 : ℚ) ^ (-1075 : Int) = η at *
  have a1 := abs_le.mp e1'
  have a2 := abs_le.mp e2
  rw [abs_le]
  constructor <;> linarith [a1.1, a1.2, a2.1, a2.2]

theorem floor_sub_floor_le_one_real {a b : ℝ} (h : |a - b| < 1) : |⌊a⌋ - ⌊b⌋| ≤ 1 := by
  have hb := abs_lt.mp h
  have a0 := Int.floor_le a
  have a1 := Int.lt_floor_add_one a
  have b0 := Int.floor_le b
  have b1 := Int.lt_floor_add_one b
  have h1 : ((⌊a⌋ : Int) : ℝ) < ⌊b⌋ + 2 := by linarith [hb.2]
  have h2 : ((⌊b⌋ : Int) : ℝ) < ⌊a⌋ + 2 := by linarith [hb.1]
  have h1' : ⌊a⌋ < ⌊b⌋ + 2 := by exact_mod_cast h1
  have h2' : ⌊b⌋ < ⌊a⌋ + 2 := by exact_mod_cast h2
  rw [abs_le]
  constructor <;> omega

/-- The constant `M_PI` lies below the real number π, by less than `2^-52 * M_PI`. -/
theorem M_PI_near_pi :
    (M_PI : ℝ) < Real.pi ∧ Real.pi - (M_PI : ℝ) ≤ (M_PI : ℝ) / 4503599627370496 := by
  have h1 := Real.pi_gt_d20
  have h2 := Real.pi_lt_d20
  have hM : (M_PI : ℝ) = 884279719003555 / 281474976710656 := by
    unfold M_PI
    push_cast
    rfl
  rw [hM]
  constructor
  · norm_num at h1 ⊢
    linarith
  · norm_num at h2 ⊢
    linarith

/-- The binary64 quotient of line 154 is within 1 of the quotient `10 * 2π * radius / velocity`
taken with the real number π. -/
theorem perCircle_error_real {radius velocity q : ℚ} (hr : 0 < radius) (hv : 0 < velocity)
    (hd : round64 velocity = velocity) (hq : perCircle radius velocity = .ok (.fin q))
    (hlt : q < 2147483649) :
    |(q : ℝ) - 10 * 2 * Real.pi * (radius : ℝ) / (velocity : ℝ)| < 1 := by
  have he := abs_le.mp (perCircle_error hr hv hd hq hlt)
  have hpi := M_PI_pos
  obtain ⟨hn1, hn2⟩ := M_PI_near_pi
  have hA : 0 ≤ 10 * 2 * M_PI * radius / velocity := div_nonneg (by positivity) hv.le
  have hAle : 10 * 2 * M_PI * radius / velocity ≤ 2147483650 := by linarith [he.1]
  -- the same facts over the reals
  have hAR : (0 : ℝ) ≤ 10 * 2 * (M_PI : ℝ) * (radius : ℝ) / (velocity : ℝ) := by
    have h := (Rat.cast_le (K := ℝ)).mpr hA
    push_cast at h
    linarith
  have hAleR : 10 * 2 * (M_PI : ℝ) * (radius : ℝ) / (velocity : ℝ) ≤ 2147483650 := by
    have h := (Rat.cast_le (K := ℝ)).mpr hAle
    push_cast at h
    linarith
  have he1 : -(3 / 4 : ℝ) ≤ (q : ℝ) - 10 * 2 * (M_PI : ℝ) * (radius : ℝ) / (velocity : ℝ) := by
    have h := (Rat.cast_le (K := ℝ)).mpr he.1
    push_cast at h
    linarith
  have he2 : (q : ℝ) - 10 * 2 * (M_PI : ℝ) * (radius : ℝ) / (velocity : ℝ) ≤ 3 / 4 := by
    have h := (Rat.cast_le (K := ℝ)).mpr he.2
    push_cast at h
    linarith
  have hMR : (0 : ℝ) < (M_PI : ℝ) := by exact_mod_cast hpi
  have hrR : (0 : ℝ) < (radius : ℝ) := by exact_mod_cast hr
  have hvR : (0 : ℝ) < (velocity : ℝ) := by exact_mod_cast hv
  have hsplit : 10 * 2 * Real.pi * (radius : ℝ) / (velocity : ℝ)
      = 10 * 2 * (M_PI : ℝ) * (radius : ℝ) / (velocity : ℝ)
        + (Real.pi - (M_PI : ℝ)) / (M_PI : ℝ)
          * (10 * 2 * (M_PI : ℝ) * (radius : ℝ) / (velocity : ℝ)) := by
    field_simp
    ring
  have hrel0 : 0 ≤ (Real.pi - (M_PI : ℝ)) / (M_PI : ℝ) := div_nonneg (by linarith) hMR.le
  have hrel1 : (Real.pi - (M_PI : ℝ)) / (M_PI : ℝ) ≤ 1 / 4503599627370496 := by
    rw [div_le_iff₀ hMR]
    linarith
  have hd0 : 0 ≤ (Real.pi - (M_PI : ℝ)) / (M_PI : ℝ)
      * (10 * 2 * (M_PI : ℝ) * (radius : ℝ) / (velocity : ℝ)) := mul_nonneg hrel0 hAR
  have hd1 : (Real.pi - (M_PI : ℝ)) / (M_PI : ℝ)
      * (10 * 2 * (M_PI : ℝ) * (radius : ℝ) / (velocity : ℝ))
      ≤ 1 / 4503599627370496 * 2147483650 :=
    mul_le_mul hrel1 hAleR hAR (by norm_num)
  rw [hsplit, abs_lt]
  constructor
  · linarith
  · linarith

theorem msgNumber_unit_circle : msgNumber 1 1 1 = .ok 62 := by
  have h := msgNumber_of_trunc 1 1 1 _ 62 perCircle_unit_circle trunc_unit_circle (by decide)
    (by decide) (by decide) (by decide)
  simpa using h

theorem msgNumber_request_2_5 : msgNumber 5 2 10 = .ok 1570 := by
  have h := msgNumber_of_trunc 5 2 10 _ 157 perCircle_request_2_5 trunc_request_2_5 (by decide)
    (by decide) (by decide) (by decide)
  simpa using h

theorem msgNumber_rounded_up :
    msgNumber 1 (5895198126690367 / 281474976710656) 1 = .ok 3 := by
  have h := msgNumber_of_trunc 1 (5895198126690367 / 281474976710656) 1 _ 3 perCircle_rounded_up
    trunc_rounded_up (by decide) (by decide) (by decide) (by decide)
  simpa using h

theorem msgNumber_radius_4000000 : msgNumber 4000000 1 10 = .error .intRange :=
  msgNumber_of_product_gt 4000000 1 10 _ 251327412 perCircle_radius_4000000
    trunc_radius_4000000 (by decide) (by decide) (by decide)

theorem floor_exact_rounded_up :
    ⌊(10 * 2 * M_PI * 1 / (5895198126690367 / 281474976710656) : ℚ)⌋ = 2 := by
  rw [Int.floor_eq_iff]
  constructor <;> norm_num [M_PI]

theorem floor_real_rounded_up :
    ⌊(10 * 2 * Real.pi * 1 / (5895198126690367 / 281474976710656) : ℝ)⌋ = 2 := by
  have h1 := Real.pi_gt_d20
  have h2 := Real.pi_lt_d20
  rw [Int.floor_eq_iff]
  constructor
  · rw [le_div_iff₀ (by norm_num)]
    norm_num at h1 ⊢
    linarith
  · rw [div_lt_iff₀ (by norm_num)]
    norm_num at h2 ⊢
    linarith

theorem floor_exact_radius_4000000 : ⌊(10 * 2 * M_PI * 4000000 / 1 : ℚ)⌋ = 251327412 := by
  rw [Int.floor_eq_iff]
  constructor <;> norm_num [M_PI]

/-! ## Claims on `moveCyclically` and `add` -/

/-- Claim C1, evaluated on the code at `radius = 1`, `velocity = 1`, `times = 1`: the tick
count is 62, and the loop `while (--msg_number > 0)` publishes 61 motion commands, one fewer
than the tick count, before the single zero command; 62 commands are published in all, not
63. -/
theorem moveCyclically_unit_circle_publishes_61 :
    msgNumber 1 1 1 = .ok 62 ∧
    moveCyclically 1 1 1
      = .ok (List.replicate 61 (specMotionCommand 1 1) ++ [specStopCommand]) ∧
    (List.replicate 61 (specMotionCommand 1 1) ++ [specStopCommand]).length = 62 ∧
    specMotionCommand 1 1 ≠ specStopCommand := by
  refine ⟨msgNumber_unit_circle, ?_, by simp, ?_⟩
  · exact moveCyclically_of_msgNumber 1 1 1 62 one_ne_zero msgNumber_unit_circle (by decide)
  · intro h
    have hx := congrArg (fun c => c.linear.x) h
    simp [specMotionCommand, specStopCommand] at hx

/-- Claim C2 as stated fails in two ways.  Rounding: for `radius = 1`,
`velocity = 20.943951023931955` (the binary64 number `5895198126690367 / 2^48`), `times = 1`
the binary64 quotient of line 154 is exactly 3, so the tick count is 3, while
`floor (10 * 2π * radius / velocity)` is 2, with π the constant `M_PI` and with the real
number π alike.  Range: for `radius = 4000000`, `velocity = 1`, `times = 10` the product
`10 * 251327412` is not a 32-bit `int`. -/
theorem msgNumber_not_times_floor :
    ((0 : ℚ) < 1 ∧ (0 : ℚ) < 5895198126690367 / 281474976710656 ∧ (0 : Int) ≤ 1 ∧
      msgNumber 1 (5895198126690367 / 281474976710656) 1 = .ok 3 ∧
      ⌊(10 * 2 * M_PI * 1 / (5895198126690367 / 281474976710656) : ℚ)⌋ = 2 ∧
      ⌊(10 * 2 * Real.pi * 1 / (5895198126690367 / 281474976710656) : ℝ)⌋ = 2 ∧
      msgNumber 1 (5895198126690367 / 281474976710656) 1
        ≠ .ok (1 * ⌊(10 * 2 * M_PI * 1 / (5895198126690367 / 281474976710656) : ℚ)⌋)) ∧
    ((0 : ℚ) < 4000000 ∧ (0 : ℚ) < 1 ∧ (0 : Int) ≤ 10 ∧
      ⌊(10 * 2 * M_PI * 4000000 / 1 : ℚ)⌋ = 251327412 ∧
      msgNumber 4000000 1 10 = .error .intRange ∧
      msgNumber 4000000 1 10 ≠ .ok (10 * ⌊(10 * 2 * M_PI * 4000000 / 1 : ℚ)⌋)) := by
  refine ⟨⟨by norm_num, by norm_num, by norm_num, msgNumber_rounded_up, floor_exact_rounded_up,
    floor_real_rounded_up, ?_⟩, ⟨by norm_num, by norm_num, by norm_num,
    floor_exact_radius_4000000, msgNumber_radius_4000000, ?_⟩⟩
  · rw [msgNumber_rounded_up, floor_exact_rounded_up]
    intro h
    have := Except.ok.inj h
    omega
  · rw [msgNumber_radius_4000000]
    simp

/-- Claim C2, amended: for binary64 numbers `radius > 0`, `velocity > 0` and `times ≥ 0` such
that the quotient `q` which line 154 computes in binary64 is finite and `floor q` and its
product with `times` do not exceed `INT_MAX`, the tick count `msg_number` equals
`times * floor q` and is non-negative, and `floor q` differs from
`floor (10 * 2π * radius / velocity)` by at most 1, with π the constant `M_PI` and with the
real number π alike; for `velocity = 1`, `radius = 1`, `times = 1` the tick count is 62. -/
theorem msgNumber_eq_times_floor :
    (∀ (radius velocity q : ℚ) (times : Int), 0 < radius → 0 < velocity → 0 ≤ times →
      round64 velocity = velocity →
      perCircle radius velocity = .ok (.fin q) →
      ⌊q⌋ ≤ INT_MAX → times * ⌊q⌋ ≤ INT_MAX →
      msgNumber radius velocity times = .ok (times * ⌊q⌋) ∧
      0 ≤ times * ⌊q⌋ ∧
      |⌊q⌋ - ⌊10 * 2 * M_PI * radius / velocity⌋| ≤ 1 ∧
      |⌊q⌋ - ⌊10 * 2 * Real.pi * (radius : ℝ) / (velocity : ℝ)⌋| ≤ 1) ∧
    msgNumber 1 1 1 = .ok 62 := by
  refine ⟨?_, msgNumber_unit_circle⟩
  intro radius velocity q times hr hv ht hd hq h2 h4
  have hq0 : 0 ≤ q := by
    rw [perCircle_fin_inv hv.ne' hq]
    have hpi := M_PI_pos
    exact round64_nonneg (div_nonneg (round64_nonneg (by positivity)) hv.le)
  have hk : trunc q = ⌊q⌋ := trunc_of_nonneg hq0
  have hf : 0 ≤ ⌊q⌋ := Int.floor_nonneg.mpr hq0
  have hp : 0 ≤ times * ⌊q⌋ := mul_nonneg ht hf
  have hlt : q < 2147483649 := by
    have h1 := Int.lt_floor_add_one q
    have h2' : ((⌊q⌋ : Int) : ℚ) ≤ 2147483647 := by exact_mod_cast h2
    linarith
  have hreal := floor_sub_floor_le_one_real (perCircle_error_real hr hv hd hq hlt)
  rw [Rat.floor_cast] at hreal
  refine ⟨?_, hp, floor_sub_floor_le_one
    (lt_of_le_of_lt (perCircle_error hr hv hd hq hlt) (by norm_num)), hreal⟩
  exact msgNumber_of_trunc radius velocity times q _ hq hk
    (le_trans (by decide) hf) h2 (le_trans (by decide) hp) h4

/-- Witness of `msgNumber_eq_times_floor` at `radius = 5`, `velocity = 2`, `times = 10`, where
the binary64 quotient is `5526748243772219 / 2^45`, about 157.08. -/
theorem msgNumber_eq_times_floor_witness :
    msgNumber 5 2 10 = .ok (10 * ⌊(5526748243772219 / 35184372088832 : ℚ)⌋) ∧
    0 ≤ 10 * ⌊(5526748243772219 / 35184372088832 : ℚ)⌋ ∧
    |⌊(5526748243772219 / 35184372088832 : ℚ)⌋ - ⌊10 * 2 * M_PI * 5 / 2⌋| ≤ 1 ∧
    |⌊(5526748243772219 / 35184372088832 : ℚ)⌋
      - ⌊10 * 2 * Real.pi * ((5 : ℚ) : ℝ) / ((2 : ℚ) : ℝ)⌋| ≤ 1 := by
  have hf : ⌊(5526748243772219 / 35184372088832 : ℚ)⌋ = 157 := by
    rw [Int.floor_eq_iff]
    constructor <;> norm_num
  exact msgNumber_eq_times_floor.1 5 2 _ 10 (by norm_num) (by norm_num) (by norm_num)
    round64_two perCircle_request_2_5 (by rw [hf]; decide) (by rw [hf]; decide)

/-- Claim C3: for `radius ≠ 0`, whenever `moveCyclically (radius, velocity, times)` publishes
a sequence of commands, its last command is the zero command and every command before it is
the one command with `linear_x = velocity`, `linear_y = 0`, `angular_z = velocity / radius`. -/
theorem moveCyclically_motion_commands (radius velocity : ℚ) (times : Int)
    (trace : List Twist) (hr : radius ≠ 0)
    (h : moveCyclically radius velocity times = .ok trace) :
    trace.getLast? = some specStopCommand ∧
    ∀ c ∈ trace.dropLast, c = specMotionCommand velocity radius ∧
      c.linear.x = velocity ∧ c.linear.y = 0 ∧ c.angular.z = velocity / radius := by
  obtain ⟨n, -, -, rfl⟩ := moveCyclically_ok_inv radius velocity times trace hr h
  refine ⟨by simp, ?_⟩
  intro c hc
  rw [List.dropLast_concat] at hc
  have hc' : c = specMotionCommand velocity radius := List.eq_of_mem_replicate hc
  subst hc'
  exact ⟨rfl, rfl, rfl, rfl⟩

/-- Witness of `moveCyclically_motion_commands` at `radius = 1`, `velocity = 1`, `times = 1`,
where 61 motion commands are published. -/
theorem moveCyclically_motion_commands_witness :
    (List.replicate 61 (specMotionCommand 1 1) ++ [specStopCommand]).getLast?
      = some specStopCommand ∧
    ∀ c ∈ (List.replicate 61 (specMotionCommand 1 1) ++ [specStopCommand]).dropLast,
      c = specMotionCommand 1 1 ∧ c.linear.x = 1 ∧ c.linear.y = 0 ∧ c.angular.z = 1 / 1 :=
  moveCyclically_motion_commands 1 1 1 _ one_ne_zero
    (moveCyclically_of_msgNumber 1 1 1 62 one_ne_zero msgNumber_unit_circle (by decide))

/-- Claim C4, evaluated on the code: `add` runs the generator with `radius = request.radius`,
`velocity = request.velocity` and the revolution count 10; for the request
`(velocity = 2, radius = 5)` the tick count is `10 * 157 = 1570`, but only 1569 commands
`{linear_x = 2, angular_z = 2/5}` are published before the stop command. -/
theorem add_request_2_5 (res : Response) :
    (∀ req : Request, (add req res).motion = moveCyclically req.radius req.velocity 10) ∧
    msgNumber 5 2 10 = .ok 1570 ∧
    (add { velocity := 2, radius := 5 } res).motion
      = .ok (List.replicate 1569 (specMotionCommand 2 5) ++ [specStopCommand]) ∧
    (specMotionCommand 2 5).linear.x = 2 ∧ (specMotionCommand 2 5).angular.z = 2 / 5 := by
  refine ⟨fun _ => rfl, msgNumber_request_2_5, ?_, rfl, rfl⟩
  exact moveCyclically_of_msgNumber 5 2 10 1570 (by norm_num) msgNumber_request_2_5 (by decide)

/-- Claim C5: for every request and whatever the motion generator does, `add` sets the
response field `sum` to 1 and returns `true`; the response is the same for all requests. -/
theorem add_acknowledges (req : Request) (res : Response) :
    (add req res).res.sum = 1 ∧ (add req res).ret = true ∧
    ∀ (req' : Request) (res' : Response), (add req' res').res = (add req res).res := by
  refine ⟨rfl, rfl, ?_⟩
  intro req' res'
  rfl

/-- Claim C9 as stated fails: with `radius = 0` and `velocity = 1` the quotient of the tick
computation has the divisor 1; the tick count is 0 and no division by zero occurs there. -/
theorem msgNumber_radius_zero_no_fault :
    msgNumber 0 1 10 = .ok 0 ∧ msgNumber 0 1 10 ≠ .error .divByZero := by
  have hk : trunc 0 = 0 := by norm_num [trunc]
  have h : msgNumber 0 1 10 = .ok 0 := by
    have := msgNumber_of_trunc 0 1 10 0 0 (perCircle_radius_zero one_ne_zero) hk (by decide)
      (by decide) (by decide) (by decide)
    simpa using this
  rw [h]
  simp

/-- Claim C9, amended: `moveCyclically` checks nothing.  For `radius ≠ 0` and `velocity ≠ 0`
neither of its two divisions has a zero divisor and its outcome is not a division fault.
Whenever `velocity = 0` the tick computation divides by zero.  Whenever `radius = 0` the
division `velocity / radius` for `angular_z` divides by zero, while the tick computation
yields 0 when `velocity ≠ 0`. -/
theorem moveCyclically_zero_divisors (radius velocity : ℚ) (times : Int) :
    (radius ≠ 0 → velocity ≠ 0 →
      fdiv velocity radius = .ok (velocity / radius) ∧
      fdiv (10 * 2 * M_PI * radius) velocity = .ok (10 * 2 * M_PI * radius / velocity) ∧
      msgNumber radius velocity times ≠ .error .divByZero ∧
      moveCyclically radius velocity times ≠ .error .divByZero) ∧
    (velocity = 0 → msgNumber radius velocity times = .error .divByZero) ∧
    (radius = 0 → fdiv velocity radius = .error .divByZero ∧
      moveCyclically radius velocity times = .error .divByZero) ∧
    (radius = 0 → velocity ≠ 0 → msgNumber radius velocity times = .ok 0) := by
  refine ⟨?_, ?_, ?_, ?_⟩
  · intro hr hv
    exact ⟨fdiv_of_ne _ hr, fdiv_of_ne _ hv, msgNumber_ne_divByZero radius velocity times hv,
      moveCyclically_ne_divByZero radius velocity times hr hv⟩
  · rintro rfl
    exact msgNumber_velocity_zero radius times
  · rintro rfl
    exact ⟨fdiv_zero _, moveCyclically_radius_zero velocity times⟩
  · rintro rfl hv
    have hk : trunc 0 = 0 := by simp [trunc]
    have h := msgNumber_of_trunc 0 velocity times 0 0 (perCircle_radius_zero hv) hk (by decide)
      (by decide) (by simp [INT_MIN]) (by simp [INT_MAX])
    simpa using h

/-- Witness of `moveCyclically_zero_divisors` at `radius = 5`, `velocity = 2`. -/
theorem moveCyclically_zero_divisors_witness :
    fdiv 2 5 = .ok (2 / 5) ∧
    fdiv (10 * 2 * M_PI * 5) 2 = .ok (10 * 2 * M_PI * 5 / 2) ∧
    msgNumber 5 2 10 ≠ .error .divByZero ∧
    moveCyclically 5 2 10 ≠ .error .divByZero :=
  (moveCyclically_zero_divisors 5 2 10).1 (by norm_num) (by norm_num)

/-- Claim C10 as stated fails in three ways.  Rounding: for `radius = 1`,
`velocity = 20.943951023931955` (the binary64 number `5895198126690367 / 2^48`), `times = 1`
the binary64 quotient of line 154 is exactly 3, so `msg_number` is 3 and two motion commands
are published, while `trunc (10 * 2π * radius / velocity)` is 2 (with π the constant `M_PI`
and with the real number π alike) and `max (2 - 1, 0)` is 1.
Range: for `radius = 4000000`, `velocity = 1`, `times = 10` the product `10 * 251327412` is
not a 32-bit `int`, so the loop does not publish 2513274119 motion commands.  Decrement: for
`radius = 1`, `velocity = 40`, `times = INT_MIN` the tick count is exactly `INT_MIN` and
`--msg_number` overflows: the outcome is not the lone stop command that
`max (msg_number - 1, 0) = 0` motion commands would give. -/
theorem moveCyclically_not_exact_pred :
    (trunc (10 * 2 * M_PI * 1 / (5895198126690367 / 281474976710656)) = 2 ∧
      ⌊(10 * 2 * Real.pi * 1 / (5895198126690367 / 281474976710656) : ℝ)⌋ = 2 ∧
      msgNumber 1 (5895198126690367 / 281474976710656) 1 = .ok 3 ∧
      moveCyclically 1 (5895198126690367 / 281474976710656) 1
        = .ok (List.replicate 2 (specMotionCommand (5895198126690367 / 281474976710656) 1)
                ++ [specStopCommand]) ∧
      moveCyclically 1 (5895198126690367 / 281474976710656) 1
        ≠ .ok (List.replicate
                (max (1 * trunc (10 * 2 * M_PI * 1 / (5895198126690367 / 281474976710656)) - 1)
                  0).toNat
                (specMotionCommand (5895198126690367 / 281474976710656) 1)
                ++ [specStopCommand])) ∧
    (trunc (10 * 2 * M_PI * 4000000 / 1) = 251327412 ∧
      msgNumber 4000000 1 10 = .error .intRange ∧
      moveCyclically 4000000 1 10
        ≠ .ok (List.replicate (max (10 * trunc (10 * 2 * M_PI * 4000000 / 1) - 1) 0).toNat
                (specMotionCommand 1 4000000) ++ [specStopCommand])) ∧
    (trunc (10 * 2 * M_PI * 1 / 40) = 1 ∧
      msgNumber 1 40 (-2147483648) = .ok (-2147483648) ∧
      (max (-2147483648 - 1 : Int) 0).toNat = 0 ∧
      moveCyclically 1 40 (-2147483648) = .error .intRange ∧
      moveCyclically 1 40 (-2147483648)
        ≠ .ok (List.replicate (max (-2147483648 - 1 : Int) 0).toNat (specMotionCommand 40 1)
                ++ [specStopCommand])) := by
  refine ⟨?_, ?_, ?_⟩
  · have hk : trunc (10 * 2 * M_PI * 1 / (5895198126690367 / 281474976710656)) = 2 :=
      trunc_eq_of_floor (by norm_num [M_PI]) (by norm_num [M_PI]) (by norm_num [M_PI])
    have hc := moveCyclically_of_msgNumber 1 (5895198126690367 / 281474976710656) 1 3
      one_ne_zero msgNumber_rounded_up (by decide)
    refine ⟨hk, floor_real_rounded_up, msgNumber_rounded_up, hc, ?_⟩
    rw [hc, hk]
    intro h
    have hl := congrArg List.length (Except.ok.inj h)
    simp at hl
  · have hk : trunc (10 * 2 * M_PI * 4000000 / 1) = 251327412 :=
      trunc_eq_of_floor (by norm_num [M_PI]) (by norm_num [M_PI]) (by norm_num [M_PI])
    refine ⟨hk, msgNumber_radius_4000000, ?_⟩
    rw [moveCyclically_of_msgNumber_error 4000000 1 10 .intRange (by norm_num)
      msgNumber_radius_4000000]
    simp
  · have hk : trunc (10 * 2 * M_PI * 1 / 40) = 1 :=
      trunc_eq_of_floor (by norm_num [M_PI]) (by norm_num [M_PI]) (by norm_num [M_PI])
    have hm : msgNumber 1 40 (-2147483648) = .ok (-2147483648) := by
      have := msgNumber_of_trunc 1 40 (-2147483648) _ 1 perCircle_velocity_40 trunc_velocity_40
        (by decide) (by decide) (by decide) (by decide)
      simpa using this
    have he : moveCyclically 1 40 (-2147483648) = .error .intRange :=
      moveCyclically_of_msgNumber_min 1 40 (-2147483648) (-2147483648) one_ne_zero hm
        (by decide)
    refine ⟨hk, hm, by decide, he, ?_⟩
    rw [he]
    simp

/-- Claim C10, amended: for `radius ≠ 0`, `velocity ≠ 0` and `times` such that the quotient
`q` which line 154 computes in binary64 is finite, `trunc q` is an `int` and
`msg_number = times * trunc q` is an `int` above `INT_MIN`, the loop
`while (--msg_number > 0)` publishes exactly `max (msg_number - 1, 0)` motion commands before
the single stop command; so whenever `msg_number ≤ 1`, in particular for `velocity` and
`radius` of opposite sign with `times ≥ 0`, the stop command is the only command
published. -/
theorem moveCyclically_publishes_pred (radius velocity q : ℚ) (times : Int)
    (hr : radius ≠ 0) (hv : velocity ≠ 0)
    (hq : perCircle radius velocity = .ok (.fin q))
    (h1 : INT_MIN ≤ trunc q) (h2 : trunc q ≤ INT_MAX)
    (h3 : INT_MIN < times * trunc q) (h4 : times * trunc q ≤ INT_MAX) :
    msgNumber radius velocity times = .ok (times * trunc q) ∧
    moveCyclically radius velocity times
      = .ok (List.replicate (max (times * trunc q - 1) 0).toNat
              (specMotionCommand velocity radius) ++ [specStopCommand]) ∧
    (times * trunc q ≤ 1 →
      moveCyclically radius velocity times = .ok [specStopCommand]) ∧
    ((0 < radius ∧ velocity < 0) ∨ (radius < 0 ∧ 0 < velocity) → 0 ≤ times →
      moveCyclically radius velocity times = .ok [specStopCommand]) := by
  have hm := msgNumber_of_perCircle radius velocity times q hq h1 h2 h3.le h4
  have hc := moveCyclically_of_msgNumber radius velocity times _ hr hm h3
  have hmax : (max (times * trunc q - 1) 0).toNat = (times * trunc q - 1).toNat := by
    omega
  have hle : times * trunc q ≤ 1 →
      moveCyclically radius velocity times = .ok [specStopCommand] := by
    intro h
    rw [hc]
    have : (times * trunc q - 1).toNat = 0 := by omega
    rw [this]
    rfl
  refine ⟨hm, by rw [hmax]; exact hc, hle, ?_⟩
  intro hs ht
  apply hle
  have hq0 : q ≤ 0 := by
    rw [perCircle_fin_inv hv hq]
    have hpi := M_PI_pos
    rcases hs with ⟨hr', hv'⟩ | ⟨hr', hv'⟩
    · exact round64_nonpos
        (div_nonpos_of_nonneg_of_nonpos (round64_nonneg (by positivity)) hv'.le)
    · exact round64_nonpos
        (div_nonpos_of_nonpos_of_nonneg
          (round64_nonpos (mul_nonpos_of_nonneg_of_nonpos (by positivity) hr'.le)) hv'.le)
  have := mul_nonpos_of_nonneg_of_nonpos ht (trunc_nonpos hq0)
  omega

/-- Witness of `moveCyclically_publishes_pred` at `radius = 1`, `velocity = -1`,
`times = 10`: the signs differ and only the stop command is published. -/
theorem moveCyclically_publishes_pred_witness :
    moveCyclically 1 (-1) 10 = .ok [specStopCommand] :=
  (moveCyclically_publishes_pred 1 (-1) _ 10 one_ne_zero (by norm_num) perCircle_backwards
    (by rw [trunc_backwards]; decide) (by rw [trunc_backwards]; decide)
    (by rw [trunc_backwards]; decide)
    (by rw [trunc_backwards]; decide)).2.2.2 (Or.inl ⟨by norm_num, by norm_num⟩) (by norm_num)

/-! ## Binary64 sums and differences of `turnOdom` at the inputs of the examples -/

theorem round64_two_pi : round64 (2 * M_PI) = 2 * M_PI := by
    rw [round64_eq 2 7074237752028440 (by norm_num) (by norm_num [M_PI, abs_of_pos])
      (by norm_num [M_PI, abs_of_pos]) (by norm_num [M_PI, abs_of_pos])]
    norm_num [M_PI]

theorem round64_two_pi_sub_boundary :
    round64 (2 * M_PI - (3152519739159347 / 4503599627370496))
      = (6286107817238603 / 1125899906842624) := by
    rw [round64_eq 2 6286107817238603 (by norm_num) (by norm_num [M_PI, abs_of_pos])
      (by norm_num [M_PI, abs_of_pos]) (by norm_num [M_PI, abs_of_pos])]
    norm_num [M_PI]

theorem round64_tenth_below :
    round64 ((-(3602879701896397 / 36028797018963968)) + 2 * M_PI)
      = (3480823880672089 / 562949953421312) := by
    rw [round64_eq 2 6961647761344178 (by norm_num) (by norm_num [M_PI, abs_of_pos])
      (by norm_num [M_PI, abs_of_pos]) (by norm_num [M_PI, abs_of_pos])]
    norm_num [M_PI]

/-! ## `turnOdom`: normalization of the target angle -/

theorem normalizeUp_of_nonneg (fuel : Nat) {radians : ℚ} (h : 0 ≤ radians) :
    normalizeUp (fuel + 1) radians = some radians := by
  simp [normalizeUp, not_lt.mpr h]

theorem normalizeUp_of_neg (fuel : Nat) {radians : ℚ} (h : radians < 0) :
    normalizeUp (fuel + 1) radians = normalizeUp fuel (round64 (radians + 2 * M_PI)) := by
  simp [normalizeUp, h, round64_two_pi]

theorem normalizeDown_of_le (fuel : Nat) {radians : ℚ} (h : radians ≤ 2 * M_PI) :
    normalizeDown (fuel + 1) radians = some radians := by
  simp [normalizeDown, round64_two_pi, not_lt.mpr h]

theorem normalizeRadians_of_mem (fuel : Nat) (h : 1 ≤ fuel) {radians : ℚ} (h0 : 0 ≤ radians)
    (h1 : radians ≤ 2 * M_PI) : normalizeRadians fuel radians = some radians := by
  obtain ⟨k, rfl⟩ := Nat.exists_eq_add_of_le' h
  unfold normalizeRadians
  rw [normalizeUp_of_nonneg _ h0]
  exact normalizeDown_of_le _ h1

theorem driveLoop_eq_pollLoop (distance : ℚ) (base_cmd : Twist) (polls : List (Poll ℚ)) :
    ∀ out, driveLoop distance base_cmd polls out
      = pollLoop (fun d => decide (d > distance)) base_cmd polls out := by
  induction polls with
  | nil => intro out; rfl
  | cons p rest ih =>
    intro out
    obtain ⟨ok, lookup⟩ := p
    cases ok with
    | false => simp [driveLoop, pollLoop]
    | true =>
      cases lookup with
      | none => simp [driveLoop, pollLoop]
      | some d =>
        by_cases h : d > distance
        · simp [driveLoop, pollLoop, h]
        · simp [driveLoop, pollLoop, h, ih]

theorem turnLoop_eq_pollLoop (radians : ℚ) (desired : Vector3) (base_cmd : Twist)
    (polls : List (Poll Rotation)) :
    ∀ out, turnLoop radians desired base_cmd polls out
      = pollLoop (fun rel => decide (specTurnDone radians desired rel)) base_cmd polls out := by
  induction polls with
  | nil => intro out; rfl
  | cons p rest ih =>
    intro out
    obtain ⟨ok, lookup⟩ := p
    cases ok with
    | false => simp [turnLoop, pollLoop]
    | true =>
      cases lookup with
      | none => simp [turnLoop, pollLoop]
      | some rel =>
        by_cases hi : |rel.angle| < NOISE_FLOOR
        · have hnot : ¬ specTurnDone radians desired rel := fun h => h.1 hi
          simp [turnLoop, pollLoop, hi, hnot, ih]
        · by_cases hd : radians < (if rel.axis.dot desired < 0 then
              round64 (round64 (2 * M_PI) - rel.angle) else rel.angle)
          · have hdone : specTurnDone radians desired rel := ⟨hi, hd⟩
            simp [turnLoop, pollLoop, hi, hd, hdone]
          · have hnot : ¬ specTurnDone radians desired rel := fun h => hd h.2
            simp [turnLoop, pollLoop, hi, hd, hnot, ih]

theorem pollLoop_quiet {α : Type} (hit : α → Bool) (base_cmd : Twist) (pre : List (Poll α)) :
    ∀ (rest : List (Poll α)) (out : List Twist), (∀ q ∈ pre, q.ok = true) →
      Quiet hit pre →
      pollLoop hit base_cmd (pre ++ rest) out
        = pollLoop hit base_cmd rest (out ++ List.replicate pre.length base_cmd) := by
  induction pre with
  | nil => intro rest out _ _; simp
  | cons q pre ih =>
    intro rest out hok hq
    obtain ⟨r, hr, hh⟩ := hq q (List.mem_cons_self _ _)
    have hqok : q.ok = true := hok q (List.mem_cons_self _ _)
    rw [List.cons_append, pollLoop]
    simp only [hqok, hr, hh]
    rw [ih rest _ (fun x hx => hok x (List.mem_cons_of_mem _ hx))
      (fun x hx => hq x (List.mem_cons_of_mem _ hx))]
    simp [List.replicate_succ]

theorem pollLoop_hit {α : Type} (hit : α → Bool) (base_cmd : Twist) (p : Poll α)
    (post : List (Poll α)) (out : List Twist) (r : α) (hok : p.ok = true)
    (hr : p.lookup = some r) (hh : hit r = true) :
    pollLoop hit base_cmd (p :: post) out
      = { result := some true, published := out ++ [base_cmd] } := by
  rw [pollLoop]
  simp [hok, hr, hh]

theorem pollLoop_fail {α : Type} (hit : α → Bool) (base_cmd : Twist) (p : Poll α)
    (post : List (Poll α)) (out : List Twist) (hok : p.ok = true) (hr : p.lookup = none) :
    pollLoop hit base_cmd (p :: post) out
      = { result := some false, published := out ++ [base_cmd] } := by
  rw [pollLoop]
  simp [hok, hr]

/-- Every list of polls has a first hit after quiet polls, a first failed lookup after quiet
polls, or is quiet throughout. -/
theorem polls_cases {α : Type} (hit : α → Bool) (polls : List (Poll α)) :
    (∃ pre p post r, polls = pre ++ p :: post ∧ Quiet hit pre ∧ p.lookup = some r ∧
      hit r = true) ∨
    (∃ pre p post, polls = pre ++ p :: post ∧ Quiet hit pre ∧ p.lookup = none) ∨
    Quiet hit polls := by
  induction polls with
  | nil => exact Or.inr (Or.inr (fun q hq => absurd hq (List.not_mem_nil q)))
  | cons p rest ih =>
    cases hl : p.lookup with
    | none =>
      exact Or.inr (Or.inl ⟨[], p, rest, rfl, fun q hq => absurd hq (List.not_mem_nil q), hl⟩)
    | some r =>
      by_cases hh : hit r = true
      · exact Or.inl ⟨[], p, rest, r, rfl, fun q hq => absurd hq (List.not_mem_nil q), hl, hh⟩
      · have hf : hit r = false := by simpa using hh
        have hcons : ∀ pre : List (Poll α), Quiet hit pre → Quiet hit (p :: pre) := by
          intro pre hpre q hq
          rcases List.mem_cons.mp hq with rfl | hq
          · exact ⟨r, hl, hf⟩
          · exact hpre q hq
        rcases ih with ⟨pre, p', post, r', h1, h2, h3, h4⟩ | ⟨pre, p', post, h1, h2, h3⟩ | h
        · exact Or.inl ⟨p :: pre, p', post, r', by rw [h1]; rfl, hcons pre h2, h3, h4⟩
        · exact Or.inr (Or.inl ⟨p :: pre, p', post, by rw [h1]; rfl, hcons pre h2, h3⟩)
        · exact Or.inr (Or.inr (hcons rest h))

theorem pollLoop_at_hit {α : Type} (hit : α → Bool) (base_cmd : Twist)
    (pre : List (Poll α)) (p : Poll α) (post : List (Poll α)) (r : α)
    (hok : ∀ q ∈ pre ++ p :: post, q.ok = true) (hq : Quiet hit pre)
    (hr : p.lookup = some r) (hh : hit r = true) :
    pollLoop hit base_cmd (pre ++ p :: post) []
      = { result := some true, published := List.replicate (pre.length + 1) base_cmd } := by
  rw [pollLoop_quiet hit base_cmd pre _ _ (fun q h => hok q (List.mem_append_left _ h)) hq,
    pollLoop_hit hit base_cmd p post _ r
      (hok p (List.mem_append_right _ (List.mem_cons_self _ _))) hr hh]
  simp [List.replicate_succ']

theorem pollLoop_at_fail {α : Type} (hit : α → Bool) (base_cmd : Twist)
    (pre : List (Poll α)) (p : Poll α) (post : List (Poll α))
    (hok : ∀ q ∈ pre ++ p :: post, q.ok = true) (hq : Quiet hit pre)
    (hr : p.lookup = none) :
    pollLoop hit base_cmd (pre ++ p :: post) []
      = { result := some false, published := List.replicate (pre.length + 1) base_cmd } := by
  rw [pollLoop_quiet hit base_cmd pre _ _ (fun q h => hok q (List.mem_append_left _ h)) hq,
    pollLoop_fail hit base_cmd p post _
      (hok p (List.mem_append_right _ (List.mem_cons_self _ _))) hr]
  simp [List.replicate_succ']

theorem pollLoop_all_quiet {α : Type} (hit : α → Bool) (base_cmd : Twist)
    (polls : List (Poll α)) (hok : ∀ q ∈ polls, q.ok = true) (hq : Quiet hit polls) :
    pollLoop hit base_cmd polls []
      = { result := none, published := List.replicate polls.length base_cmd } := by
  have h := pollLoop_quiet hit base_cmd polls [] [] hok hq
  rw [List.append_nil] at h
  rw [h]
  simp [pollLoop]

/-- The outcome of a polling loop on polls with the node alive. -/
theorem pollLoop_result {α : Type} (hit : α → Bool) (base_cmd : Twist)
    (polls : List (Poll α)) (hok : ∀ q ∈ polls, q.ok = true) :
    ((pollLoop hit base_cmd polls []).result = some true ↔
      ∃ pre p post r, polls = pre ++ p :: post ∧ Quiet hit pre ∧ p.lookup = some r ∧
        hit r = true) ∧
    ((pollLoop hit base_cmd polls []).result = some false ↔
      ∃ pre p post, polls = pre ++ p :: post ∧ Quiet hit pre ∧ p.lookup = none) ∧
    ((pollLoop hit base_cmd polls []).result = none ↔ Quiet hit polls) := by
  have fwd1 : (∃ pre p post r, polls = pre ++ p :: post ∧ Quiet hit pre ∧
      p.lookup = some r ∧ hit r = true) →
      (pollLoop hit base_cmd polls []).result = some true := by
    rintro ⟨pre, p, post, r, rfl, hq, hr, hh⟩
    rw [pollLoop_at_hit hit base_cmd pre p post r hok hq hr hh]
  have fwd2 : (∃ pre p post, polls = pre ++ p :: post ∧ Quiet hit pre ∧ p.lookup = none) →
      (pollLoop hit base_cmd polls []).result = some false := by
    rintro ⟨pre, p, post, rfl, hq, hr⟩
    rw [pollLoop_at_fail hit base_cmd pre p post hok hq hr]
  have fwd3 : Quiet hit polls → (pollLoop hit base_cmd polls []).result = none := by
    intro hq
    rw [pollLoop_all_quiet hit base_cmd polls hok hq]
  refine ⟨⟨fun h => ?_, fwd1⟩, ⟨fun h => ?_, fwd2⟩, ⟨fun h => ?_, fwd3⟩⟩
  · rcases polls_cases hit polls with h1 | h2 | h3
    · exact h1
    · rw [fwd2 h2] at h; cases h
    · rw [fwd3 h3] at h; cases h
  · rcases polls_cases hit polls with h1 | h2 | h3
    · rw [fwd1 h1] at h; cases h
    · exact h2
    · rw [fwd3 h3] at h; cases h
  · rcases polls_cases hit polls with h1 | h2 | h3
    · rw [fwd1 h1] at h; cases h
    · rw [fwd2 h2] at h; cases h
    · exact h3

theorem quiet_drive_iff (distance : ℚ) (pre : List (Poll ℚ)) :
    Quiet (fun d => decide (d > distance)) pre ↔
      ∀ q ∈ pre, ∃ x, q.lookup = some x ∧ x ≤ distance := by
  simp [Quiet]

theorem quiet_turn_iff (target : ℚ) (desired : Vector3) (pre : List (Poll Rotation)) :
    Quiet (fun rel => decide (specTurnDone target desired rel)) pre ↔
      ∀ q ∈ pre, ∃ r, q.lookup = some r ∧ ¬ specTurnDone target desired r := by
  simp [Quiet]

theorem driveForwardOdom_eq (distance velocity : ℚ) (polls : List (Poll ℚ)) :
    ∃ base_cmd : Twist, driveForwardOdom distance velocity polls
      = pollLoop (fun d => decide (d > distance)) base_cmd polls [] :=
  ⟨_, driveLoop_eq_pollLoop distance _ polls []⟩

theorem turnOdom_eq (fuel : Nat) (clockwise : Bool) (radians target : ℚ)
    (polls : List (Poll Rotation)) (hnorm : normalizeRadians fuel radians = some target) :
    turnOdom fuel clockwise radians polls
      = pollLoop (fun rel => decide (specTurnDone target (desiredTurnAxis clockwise) rel))
          (turnCommand clockwise) polls [] := by
  unfold turnOdom
  rw [hnorm]
  exact turnLoop_eq_pollLoop _ _ _ polls []

/-! ## Claims on the closed-loop segment driver -/

/-- Claim C6: on polls with the node alive, `driveForwardOdom (distance, velocity)` returns
`true` exactly when some reading has `dist_moved > distance` and every poll before the first
such reading is a successful lookup (of a reading that does not exceed `distance`); it then
stops at that reading, having published one command per poll up to it.  It returns `false`
exactly when a lookup fails before any reading exceeds `distance`. -/
theorem driveForwardOdom_result (distance velocity : ℚ) (polls : List (Poll ℚ))
    (halive : ∀ p ∈ polls, p.ok = true) :
    ((driveForwardOdom distance velocity polls).result = some true ↔
      ∃ pre p post d, polls = pre ++ p :: post ∧
        (∀ q ∈ pre, ∃ x, q.lookup = some x ∧ x ≤ distance) ∧
        p.lookup = some d ∧ distance < d) ∧
    (∀ pre p post d, polls = pre ++ p :: post →
      (∀ q ∈ pre, ∃ x, q.lookup = some x ∧ x ≤ distance) →
      p.lookup = some d → distance < d →
      (driveForwardOdom distance velocity polls).published.length = pre.length + 1) ∧
    ((driveForwardOdom distance velocity polls).result = some false ↔
      ∃ pre p post, polls = pre ++ p :: post ∧
        (∀ q ∈ pre, ∃ x, q.lookup = some x ∧ x ≤ distance) ∧ p.lookup = none) := by
  obtain ⟨base_cmd, heq⟩ := driveForwardOdom_eq distance velocity polls
  rw [heq]
  obtain ⟨h1, h2, -⟩ := pollLoop_result (fun d => decide (d > distance)) base_cmd polls halive
  refine ⟨?_, ?_, ?_⟩
  · rw [h1]
    simp only [quiet_drive_iff, decide_eq_true_eq, gt_iff_lt]
  · rintro pre p post d rfl hq hd hlt
    rw [pollLoop_at_hit _ base_cmd pre p post d halive ((quiet_drive_iff distance pre).mpr hq)
      hd (by simpa using hlt)]
    simp
  · rw [h2]
    simp only [quiet_drive_iff]

/-- Witness of `driveForwardOdom_result`: with `distance = 2` and the readings 1, 3 followed by
a failed lookup, the function returns `true` at the second poll. -/
theorem driveForwardOdom_result_witness :
    (driveForwardOdom 2 (1 / 4)
      [{ ok := true, lookup := some 1 }, { ok := true, lookup := some 3 },
       { ok := true, lookup := none }]).result = some true :=
  (driveForwardOdom_result 2 (1 / 4)
    [{ ok := true, lookup := some 1 }, { ok := true, lookup := some 3 },
     { ok := true, lookup := none }] (by simp)).1.mpr
    ⟨[{ ok := true, lookup := some 1 }], { ok := true, lookup := some 3 },
     [{ ok := true, lookup := none }], 3, rfl, by simp, rfl, by norm_num⟩

/-- A reading on the boundary: with the target `5.583185307179586` (the binary64 number
`6286107817238603 / 2^50`) and the angle `0.7` (`3152519739159347 / 2^52`) about an
anti-aligned axis, the binary64 difference `2π - 0.7` equals the target and does not exceed
it, so a failed lookup at the next poll makes the function return `false`. -/
theorem turnOdom_boundary_reading :
    (turnOdom 1 true (6286107817238603 / 1125899906842624)
      [{ ok := true,
         lookup := some { angle := 3152519739159347 / 4503599627370496,
                          axis := { x := 0, y := 0, z := -1 } } },
       { ok := true, lookup := none }]).result = some false := by
  have hnorm : normalizeRadians 1 (6286107817238603 / 1125899906842624)
      = some (6286107817238603 / 1125899906842624) :=
    normalizeRadians_of_mem 1 le_rfl (by norm_num) (by norm_num [M_PI])
  have hquiet : ¬ specTurnDone (6286107817238603 / 1125899906842624) (desiredTurnAxis true)
      { angle := 3152519739159347 / 4503599627370496, axis := { x := 0, y := 0, z := -1 } } := by
    intro h
    have hdot : Vector3.dot { x := 0, y := 0, z := -1 } (desiredTurnAxis true) < 0 := by
      norm_num [desiredTurnAxis, Vector3.dot]
    have h2 := h.2
    unfold specAngleTurned at h2
    rw [if_pos hdot, round64_two_pi, round64_two_pi_sub_boundary] at h2
    exact lt_irrefl _ h2
  rw [turnOdom_eq 1 true _ _ _ hnorm]
  have h := pollLoop_at_fail
    (fun rel => decide (specTurnDone (6286107817238603 / 1125899906842624)
      (desiredTurnAxis true) rel)) (turnCommand true)
    [{ ok := true,
       lookup := some { angle := 3152519739159347 / 4503599627370496,
                        axis := { x := 0, y := 0, z := -1 } } }]
    { ok := true, lookup := none } [] (by simp)
    ((quiet_turn_iff _ _ _).mpr (by simpa using hquiet)) rfl
  simp only [List.singleton_append] at h
  rw [h]

theorem normalizeRadians_tenth_below :
    normalizeRadians 2 (-(3602879701896397 / 36028797018963968))
      = some (3480823880672089 / 562949953421312) := by
  unfold normalizeRadians
  rw [normalizeUp_of_neg 1 (by norm_num), round64_tenth_below,
    normalizeUp_of_nonneg 0 (by norm_num)]
  exact normalizeDown_of_le 1 (by norm_num [M_PI])

/-- A rounded target: the input `-0.1` (the binary64 number `-3602879701896397 / 2^55`) is
normalized to the binary64 sum `-0.1 + 2π = 3480823880672089 / 2^49`, which lies above the
exact sum.  A reading with just this angle about an aligned axis does not exceed the target,
so a failed lookup at the next poll makes the function return `false`. -/
theorem turnOdom_rounded_target :
    -(3602879701896397 / 36028797018963968) + 2 * M_PI
      < (3480823880672089 / 562949953421312 : ℚ) ∧
    (turnOdom 2 true (-(3602879701896397 / 36028797018963968))
      [{ ok := true,
         lookup := some { angle := 3480823880672089 / 562949953421312,
                          axis := { x := 0, y := 0, z := 1 } } },
       { ok := true, lookup := none }]).result = some false := by
  refine ⟨by norm_num [M_PI], ?_⟩
  have hquiet : ¬ specTurnDone (3480823880672089 / 562949953421312) (desiredTurnAxis true)
      { angle := 3480823880672089 / 562949953421312, axis := { x := 0, y := 0, z := 1 } } := by
    intro h
    have hdot : ¬ Vector3.dot { x := 0, y := 0, z := 1 } (desiredTurnAxis true) < 0 := by
      norm_num [desiredTurnAxis, Vector3.dot]
    have h2 := h.2
    unfold specAngleTurned at h2
    rw [if_neg hdot] at h2
    exact lt_irrefl _ h2
  rw [turnOdom_eq 2 true _ _ _ normalizeRadians_tenth_below]
  have h := pollLoop_at_fail
    (fun rel => decide (specTurnDone (3480823880672089 / 562949953421312)
      (desiredTurnAxis true) rel)) (turnCommand true)
    [{ ok := true,
       lookup := some { angle := 3480823880672089 / 562949953421312,
                        axis := { x := 0, y := 0, z := 1 } } }]
    { ok := true, lookup := none } [] (by simp)
    ((quiet_turn_iff _ _ _).mpr (by simpa using hquiet)) rfl
  simp only [List.singleton_append] at h
  rw [h]

end RobotCircleMoving
